import Mathlib

/-!
Verification of the hex-grid tactical RPG core (pathfinding, combat
resolution, enemy behavior), shallowly embedded from the Python sources:
`utils/hex_utils.py`, `core/pathfinding/a_star.py`, `client/map/tile.py`,
`client/game_state.py`, `client/combat_system.py`, `client/ai_system.py`,
`client/enemy.py`.

Python machine model used throughout: Python ints are `Int` (or `Nat` where
the source only ever produces non-negative values), dicts are association
lists with replace-on-assign semantics, and loops are either structural
recursion over the iterated list or fuel-bounded recursion for `while`
loops (every theorem quantifies over the fuel, so no termination argument
for the Python loop is assumed anywhere).
-/

namespace DWGame

/-- Axial hex coordinate `(q, r)`, a pair of Python ints. -/
abbrev Coord := Int × Int

/-- `get_neighbors(q, r)` from `utils/hex_utils.py`: the six axial
neighbors in the source's fixed order. -/
def get_neighbors (q r : Int) : List Coord :=
  [(q+1, r), (q+1, r-1), (q, r-1), (q-1, r), (q-1, r+1), (q, r+1)]

/-- `hex_distance(q1, r1, q2, r2)` from `utils/hex_utils.py`:
`(abs(q1 - q2) + abs(q1 + r1 - q2 - r2) + abs(r1 - r2)) // 2`.
The three absolute values always have even sum, so Python floor
division by 2 is exact, and the result is a non-negative int. -/
def hex_distance (q1 r1 q2 r2 : Int) : Nat :=
  ((q1 - q2).natAbs + (q1 + r1 - q2 - r2).natAbs + (r1 - r2).natAbs) / 2

/-- Terrain tile from `client/map/tile.py`, restricted to the two fields the
game logic reads (`type` and `color` are rendering-only).  The constructible
kinds are plain (cost 1, passable), forest (cost 2, passable) and wall
(blocked; its `float('inf')` cost is never read because every consumer skips
blocked tiles first), so the cost of a tile whose cost is ever read is a
non-negative int, modelled as `Nat`. -/
structure Tile where
  cost : Nat
  blocked : Bool
deriving DecidableEq

/-- A grid (`grid_tiles` dict): partial map from coordinates to tiles;
`grid c = none` models `c not in grid`. -/
abbrev Grid := Coord → Option Tile

/-- The spec's Terrain Grid cost invariant ("movement cost: positive
number or impassable"; A* heuristic admissibility relies on "per-step cost
>= 1"): every passable tile costs at least 1.  All tiles the repository
constructs (plain 1, forest 2) satisfy it. -/
def WellCosted (grid : Grid) : Prop :=
  ∀ p t, grid p = some t → t.blocked = false → 1 ≤ t.cost

/-- Python dict lookup `d.get(k)` / `k in d`. -/
def dlookup {α β : Type} [DecidableEq α] : List (α × β) → α → Option β
  | [], _ => none
  | (k, v) :: rest, a => if k = a then some v else dlookup rest a

/-- Python dict assignment `d[k] = v`: replaces an existing binding in
place, otherwise appends a new one. -/
def dinsert {α β : Type} [DecidableEq α] : List (α × β) → α → β → List (α × β)
  | [], a, b => [(a, b)]
  | (k, v) :: rest, a, b =>
    if k = a then (a, b) :: rest else (k, v) :: dinsert rest a b

/-- `g_score` read with default 0.  On every state the search actually
reaches, the key is present whenever the value is used (Python would raise
`KeyError` otherwise), so the default never matters. -/
def gval (gs : List (Coord × Nat)) (c : Coord) : Nat :=
  (dlookup gs c).getD 0

/-- Mutable state of the `a_star` while-loop from
`core/pathfinding/a_star.py`: the four dicts plus the heap contents. -/
structure AState where
  gScore : List (Coord × Nat)
  fScore : List (Coord × Nat)
  cameFrom : List (Coord × Coord)
  openSet : List (Nat × Coord)
  openHash : List Coord
deriving DecidableEq

/-- `heapq` entry order: Python compares the pushed `(f_score, (q, r))`
tuples lexicographically. -/
def entryLt (a b : Nat × Coord) : Bool :=
  a.1 < b.1 || (a.1 == b.1 &&
    (a.2.1 < b.2.1 || (a.2.1 == b.2.1 && a.2.2 < b.2.2)))

/-- `heapq.heappop`: removes and returns the least entry.  Coordinates in
the open set are pairwise distinct (`open_set_hash` guards every push), so
the minimum is unique and the heap's internal layout is irrelevant; we take
the leftmost minimum. -/
def popMin : List (Nat × Coord) → Option ((Nat × Coord) × List (Nat × Coord))
  | [] => none
  | e :: rest =>
    match popMin rest with
    | none => some (e, [])
    | some (m, others) =>
      if entryLt m e then some (m, e :: others) else some (e, others)

/-- One iteration of the `for neighbor in get_neighbors(...)` body of
`a_star`: skip coordinates that are absent or blocked, otherwise relax with
strict improvement and push newly discovered nodes. -/
def relaxNeighbor (grid : Grid) (goal current : Coord) (st : AState)
    (nb : Coord) : AState :=
  match grid nb with
  | none => st
  | some t =>
    if t.blocked then st
    else
      let tentative := gval st.gScore current + t.cost
      let improve :=
        match dlookup st.gScore nb with
        | none => true
        | some gn => decide (tentative < gn)
      if improve then
        let fnb := tentative + hex_distance nb.1 nb.2 goal.1 goal.2
        let st1 : AState :=
          { st with
            gScore := dinsert st.gScore nb tentative
            fScore := dinsert st.fScore nb fnb
            cameFrom := dinsert st.cameFrom nb current }
        if nb ∈ st.openHash then st1
        else
          { st1 with
            openSet := st1.openSet ++ [(fnb, nb)]
            openHash := nb :: st1.openHash }
      else st

/-- The `while current in came_from` walk of `reconstruct_path`, built as
`[current, parent, ..., start]`.  The fuel bounds the number of parent
steps; `a_star` calls it with fuel `came_from.length + 1`, which suffices
because parent links strictly decrease `g_score` (costs >= 1) and hence
never revisit a key. -/
def reconstructChain (cf : List (Coord × Coord)) : Nat → Coord → List Coord
  | 0, cur => [cur]
  | fuel + 1, cur =>
    match dlookup cf cur with
    | none => [cur]
    | some c => cur :: reconstructChain cf fuel c

/-- `reconstruct_path(came_from, current, start)` from
`core/pathfinding/a_star.py`: walk parent links, then if the walk ended at
`start`, reverse, drop the leading `start` and re-insert it (a no-op
permutation kept for faithfulness); otherwise just reverse. -/
def reconstruct_path (cf : List (Coord × Coord)) (current start : Coord) :
    List Coord :=
  let path := reconstructChain cf (cf.length + 1) current
  if path ≠ [] ∧ path.getLast? = some start then
    match path.reverse with
    | [] => []
    | _ :: rest => start :: rest
  else path.reverse

/-- The `while open_set:` loop of `a_star`.  `budget` is `max_distance`:
`some b` for a finite int cap, `none` for `None` / a non-int such as
`float('inf')` (the truncation guard tests `is not None and
isinstance(..., int)`).  Fuel exhaustion returns `[]`; every theorem below
holds for every fuel. -/
def aStarLoop (grid : Grid) (goal start : Coord) (budget : Option Nat) :
    Nat → AState → List Coord
  | 0, _ => []
  | fuel + 1, st =>
    match popMin st.openSet with
    | none => []
    | some (e, rest) =>
      let current := e.2
      let st1 : AState :=
        { st with openSet := rest, openHash := st.openHash.erase current }
      if current = goal then
        let path := reconstruct_path st1.cameFrom current start
        match budget with
        | some b => if b + 1 < path.length then path.take (b + 1) else path
        | none => path
      else
        let st2 := (get_neighbors current.1 current.2).foldl
          (relaxNeighbor grid goal current) st1
        aStarLoop grid goal start budget fuel st2

/-- `a_star(start, goal, grid, max_distance)` from
`core/pathfinding/a_star.py`: guard absent endpoints, return `[start]` when
`start == goal`, otherwise run the search from the singleton frontier. -/
def a_star (fuel : Nat) (start goal : Coord) (grid : Grid)
    (budget : Option Nat) : List Coord :=
  if (grid start).isNone ∨ (grid goal).isNone then []
  else if start = goal then [start]
  else
    let h0 := hex_distance start.1 start.2 goal.1 goal.2
    aStarLoop grid goal start budget fuel
      { gScore := [(start, 0)], fScore := [(start, h0)], cameFrom := [],
        openSet := [(h0, start)], openHash := [start] }

/-- Open-frontier soundness invariant for `a_star`: every coordinate ever
pushed onto the heap is either `start` or a present, unblocked grid cell
(the neighbor loop skips everything else). -/
def OpenOK (grid : Grid) (start : Coord) (st : AState) : Prop :=
  ∀ e ∈ st.openSet, e.2 = start ∨ ∃ t, grid e.2 = some t ∧ t.blocked = false

/-- Parent-link invariant of the search dictionaries: every `came_from`
edge `n ↦ c` records an unblocked in-grid node `n` that is a hex neighbor
of `c`, its parent `c` is `start` or itself a key, `g_score` is defined on
keys, and `g_score` strictly decreases from key to parent (each relaxation
sets `g[n] = g[c] + cost(n)` with `cost ≥ 1`); `start` is never a key and
keeps `g_score` 0. -/
def CFInv (grid : Grid) (start : Coord) (cf : List (Coord × Coord))
    (gs : List (Coord × Nat)) : Prop :=
  (∀ n c, dlookup cf n = some c →
    (∃ t, grid n = some t ∧ t.blocked = false) ∧
    n ∈ get_neighbors c.1 c.2 ∧
    (c = start ∨ (dlookup cf c).isSome = true) ∧
    (dlookup gs n).isSome = true ∧
    gval gs c < gval gs n) ∧
  dlookup cf start = none ∧ dlookup gs start = some 0

/-- Full loop invariant of `a_star`: the parent-link invariant plus the
fact that every frontier coordinate is `start` or a `came_from` key. -/
def Inv (grid : Grid) (start : Coord) (st : AState) : Prop :=
  CFInv grid start st.cameFrom st.gScore ∧
  ∀ e ∈ st.openSet, e.2 = start ∨ (dlookup st.cameFrom e.2).isSome = true

/-- Number of `came_from` keys whose `g_score` is below that of `cur`:
the termination measure of the parent-link walk (parents strictly decrease
`g_score`). -/
def measureCF (cf : List (Coord × Coord)) (gs : List (Coord × Nat))
    (cur : Coord) : Nat :=
  ((cf.map Prod.fst).filter (fun k => decide (gval gs k < gval gs cur))).length

/-- Concrete 4x4 all-plain grid (the spec's concrete-scenario grid):
coordinates with `0 <= q, r < 4`, all cost-1, unblocked. -/
def grid4 : Grid := fun c =>
  if 0 ≤ c.1 ∧ c.1 < 4 ∧ 0 ≤ c.2 ∧ c.2 < 4 then some ⟨1, false⟩ else none

/-- One-cell grid whose only cell `(0, 0)` is blocked (a wall tile with an
enemy standing on it would also do); used to exhibit the missing
goal-blocked guard when `start == goal`. -/
def gridBlockedCell : Grid := fun c =>
  if c = ((0 : Int), (0 : Int)) then some ⟨1, true⟩ else none

/-- Enemy behavior tag (`'chase' | 'patrol' | 'retreat'`). -/
inductive Behavior where
  | chase
  | patrol
  | retreat
deriving DecidableEq

/-- Game mode (`'exploration' | 'combat'`). -/
inductive Mode where
  | exploration
  | combat
deriving DecidableEq

/-- Enemy record from `client/enemy.py` (`Enemy.__init__`), restricted to
the gameplay fields (`renderer`/`screen_pos` are rendering-only).
`attack_this_turn` is created later by `take_turn` / plan methods; it is a
field here with the value the planners assign. -/
structure Enemy where
  pos : Coord
  mv_limit : Nat
  hp : Int
  max_hp : Int
  queued_path : List Coord
  current_path_index : Nat
  is_moving : Bool
  behavior : Behavior
  chase_distance : Nat
  retreat_threshold : Nat
  targeting_player : Bool
  attack_this_turn : Bool
deriving DecidableEq

/-- `Enemy.__init__(start_pos, mv_limit, behavior, ...)`: note the source
assigns `self.mv_limit = 99` ("Unlimited for enemies to chase"), ignoring
the `mv_limit` parameter. -/
def enemy_init (start_pos : Coord) (mv_limit : Nat) (behavior : Behavior) :
    Enemy :=
  { pos := start_pos
    mv_limit := 99
    hp := 10
    max_hp := 10
    queued_path := []
    current_path_index := 0
    is_moving := false
    behavior := behavior
    chase_distance := 10
    retreat_threshold := 3
    targeting_player := false
    attack_this_turn := false }

/-- Game state from `client/game_state.py` (`GameState`), restricted to the
fields the verified operations read or write. -/
structure GameState where
  player_pos : Coord
  enemies : List Enemy
  player_hp : Int
  max_player_hp : Int
  game_mode : Mode
  mv_limit : Nat
  exploration_mv : Nat
  is_moving : Bool
  commanded_path : Option (List Coord)
  win_message : String
deriving DecidableEq

/-- `GameState.update_hp(damage)`: clamp-decrement the player's HP and set
the defeat message if it reaches 0. -/
def update_hp (st : GameState) (damage : Int) : GameState :=
  let hp2 := max 0 (st.player_hp - damage)
  if hp2 ≤ 0 then
    { st with player_hp := hp2, win_message := "Defeated... Game Over!" }
  else { st with player_hp := hp2 }

/-- `GameState.get_mv_limit()`. -/
def get_mv_limit (st : GameState) : Nat :=
  if st.game_mode = Mode.exploration then st.exploration_mv else st.mv_limit

/-- The loop of `GameState.get_closest_enemy`: scan enemies in list order,
keeping the first strict minimizer of hex distance among the living
(`hp > 0`); `minDist` starts at `float('inf')`, modelled by `none`.  The
index of the chosen enemy is carried so callers can mutate it in place. -/
def pickClosest (pq pr : Int) :
    List (Nat × Enemy) → Option (Nat × Enemy) → Option Nat →
      Option (Nat × Enemy)
  | [], acc, _ => acc
  | (i, enem) :: rest, acc, minDist =>
    if 0 < enem.hp then
      let dist := hex_distance pq pr enem.pos.1 enem.pos.2
      let better :=
        match minDist with
        | none => true
        | some m => decide (dist < m)
      if better then pickClosest pq pr rest (some (i, enem)) (some dist)
      else pickClosest pq pr rest acc minDist
    else pickClosest pq pr rest acc minDist

/-- `GameState.get_closest_enemy()`: closest living enemy, or `None`. -/
def get_closest_enemy (st : GameState) : Option Enemy :=
  (pickClosest st.player_pos.1 st.player_pos.2 st.enemies.enum none
    none).map Prod.snd

/-- Player half of `CombatSystem._resolve_combat_attacks`: if the player is
alive and not moving, melee-attack the closest living enemy when adjacent;
the enemy's HP is decremented without clamping, and on reaching `<= 0` its
position is moved to `(-999, -999)`.  `rolls` is the injected stream of
`roll_d6()` outcomes. -/
def playerAttackPhase (st : GameState) (rolls : List Int) :
    GameState × List Int :=
  if 0 < st.player_hp ∧ st.is_moving = false then
    match pickClosest st.player_pos.1 st.player_pos.2 st.enemies.enum
        none none with
    | none => (st, rolls)
    | some (i, closest) =>
      let dist := hex_distance st.player_pos.1 st.player_pos.2
        closest.pos.1 closest.pos.2
      if dist = 1 then
        let damage := rolls.headD 1
        let hp2 := closest.hp - damage
        let closest2 :=
          if hp2 ≤ 0 then { closest with hp := hp2, pos := (-999, -999) }
          else { closest with hp := hp2 }
        ({ st with enemies := st.enemies.set i closest2 }, rolls.tail)
      else (st, rolls)
  else (st, rolls)

/-- One iteration of the enemy half of
`CombatSystem._resolve_combat_attacks` (the `for enem in
self.state.enemies` body at list index `i`): a living enemy with its
attack flag set clears the flag and attacks the player — melee roll at
distance 1, or if ranged attacks are enabled and distance `<= 3` a roll
reduced by `distance - 1` floored at 0; nonzero damage is applied through
`update_hp(-damage)`. -/
def enemyAttackStep (ranged : Bool) (acc : GameState × List Int) (i : Nat) :
    GameState × List Int :=
  let st := acc.1
  let rolls := acc.2
  match st.enemies.get? i with
  | none => acc
  | some enem =>
    if 0 < enem.hp ∧ enem.attack_this_turn = true then
      let st1 :=
        { st with enemies :=
            st.enemies.set i { enem with attack_this_turn := false } }
      let dist := hex_distance enem.pos.1 enem.pos.2
        st1.player_pos.1 st1.player_pos.2
      if dist = 1 then
        let damage := rolls.headD 1
        if damage ≠ 0 then (update_hp st1 (-damage), rolls.tail)
        else (st1, rolls.tail)
      else if dist ≤ 3 ∧ ranged = true then
        let damage := max 0 (rolls.headD 1 - ((dist : Int) - 1))
        if damage ≠ 0 then (update_hp st1 (-damage), rolls.tail)
        else (st1, rolls.tail)
      else (st1, rolls)
    else acc

/-- `CombatSystem._resolve_combat_attacks`: player auto-attack, then each
enemy's attack in list order (index-threaded: the Python loop iterates the
live list, seeing earlier mutations). -/
def resolve_combat_attacks (ranged : Bool) (st : GameState)
    (rolls : List Int) : GameState × List Int :=
  let p := playerAttackPhase st rolls
  (List.range p.1.enemies.length).foldl (enemyAttackStep ranged) p

/-! #### Exact model of the IEEE-754 double computation `max_hp * 0.3` -/

/-- Floor of the base-2 logarithm, by fuel-bounded halving (the fuel `p`
always suffices); kernel-evaluable, unlike well-founded recursion. -/
def natLog2Fuel : Nat → Nat → Nat
  | 0, _ => 0
  | fuel + 1, p => if p ≤ 1 then 0 else natLog2Fuel fuel (p / 2) + 1

/-- `⌊log2 p⌋` for `p ≥ 1` (0 at 0). -/
def natLog2 (p : Nat) : Nat := natLog2Fuel p p

/-- Round a natural number to 53 significant bits, round-half-to-even: the
mantissa rounding every Python float operation applies.  Exact below
`2 ^ 53`. -/
def roundNat53 (p : Nat) : Nat :=
  if p < 2 ^ 53 then p
  else
    let s := natLog2 p - 52
    let q := p / 2 ^ s
    let r := p % 2 ^ s
    let half := 2 ^ (s - 1)
    if half < r ∨ (r = half ∧ q % 2 = 1) then (q + 1) * 2 ^ s
    else q * 2 ^ s

/-- Numerator of the double nearest 0.3: `0.3 = 5404319552844595 / 2^54`
(`0x3fd3333333333333`). -/
def d03num : Nat := 5404319552844595

/-- The Python expression `float(n) * 0.3` for an int `n`, as the integer
numerator of the resulting double over the fixed denominator `2 ^ 54`:
convert `n` to double (one rounding to 53 bits), multiply by the double
0.3 (one more rounding).  Both roundings are modelled exactly; IEEE
negation and rounding are sign-symmetric; overflow (`n` beyond 10^308) is
outside any value the game can reach. -/
def py03Thresh (n : Int) : Int :=
  if 0 ≤ n then (roundNat53 (roundNat53 n.toNat * d03num) : Int)
  else -(roundNat53 (roundNat53 (-n).toNat * d03num) : Int)

/-- `AISystem._decide_behavior(enemy, player_hp, player_pos)` from
`client/ai_system.py`: patrol when the player is eliminated, retreat when
`enemy.hp <= enemy.max_hp * 0.3`, chase within 15 hexes, else patrol.
Python compares the int `hp` with the double `max_hp * 0.3 =
py03Thresh(max_hp) / 2^54` exactly, which is the integer comparison
`hp * 2^54 <= py03Thresh(max_hp)`. -/
def decide_behavior (enemy : Enemy) (player_hp : Int) (player_pos : Coord) :
    Behavior × Coord :=
  if player_hp ≤ 0 then (Behavior.patrol, enemy.pos)
  else
    let dist := hex_distance enemy.pos.1 enemy.pos.2 player_pos.1 player_pos.2
    if enemy.hp * 2 ^ 54 ≤ py03Thresh enemy.max_hp then
      (Behavior.retreat, enemy.pos)
    else if dist ≤ 15 then (Behavior.chase, player_pos)
    else (Behavior.patrol, enemy.pos)

/-- Behavior decision of `CombatSystem._plan_enemy_actions` (and its
turn-based twin): chase within `chase_distance` else patrol, overridden to
retreat when `enem.hp <= enem.max_hp * enem.retreat_threshold` (exact int
arithmetic there: `retreat_threshold` is the int 3). -/
def plan_enemy_behavior (enem : Enemy) (player_pos : Coord) : Behavior :=
  let dist := hex_distance enem.pos.1 enem.pos.2 player_pos.1 player_pos.2
  let behavior :=
    if dist ≤ enem.chase_distance then Behavior.chase else Behavior.patrol
  if enem.hp ≤ enem.max_hp * (enem.retreat_threshold : Int) then
    Behavior.retreat
  else behavior

/-! #### `Enemy.find_free_hex_adjacent_to_target` -/

/-- Offsets `range(-mv, mv + 1)` in Python iteration order. -/
def scanOffsets (mv : Nat) : List Int :=
  (List.range (2 * mv + 1)).map (fun (i : Nat) => (i : Int) - (mv : Int))

/-- The nested `for q ... for r ...` iteration order. -/
def offsetPairs (mv : Nat) : List (Int × Int) :=
  (scanOffsets mv).flatMap (fun q => (scanOffsets mv).map (fun r => (q, r)))

/-- Loop body accumulator of `find_free_hex_adjacent_to_target`: first
strict minimizer of `hex_distance(hx, hy, *target_pos)` over the offsets
that survive the skips (`|q+r| <= mv`, `|hx|,|hy| <= 50`, present,
unblocked, unoccupied). -/
def ffhFold (mv : Nat) (target : Coord) (grid : Grid)
    (occupied : List Coord) :
    List (Int × Int) → Option Coord × Option Nat → Option Coord × Option Nat
  | [], acc => acc
  | (q, r) :: rest, (closest, minDist) =>
    if mv < (q + r).natAbs then ffhFold mv target grid occupied rest (closest, minDist)
    else
      let hx := target.1 + q
      let hy := target.2 + r
      if 50 < hx.natAbs ∨ 50 < hy.natAbs then
        ffhFold mv target grid occupied rest (closest, minDist)
      else
        match grid (hx, hy) with
        | none => ffhFold mv target grid occupied rest (closest, minDist)
        | some t =>
          if t.blocked then ffhFold mv target grid occupied rest (closest, minDist)
          else if (hx, hy) ∈ occupied then
            ffhFold mv target grid occupied rest (closest, minDist)
          else
            let dist := hex_distance hx hy target.1 target.2
            let better :=
              match minDist with
              | none => true
              | some m => decide (dist < m)
            if better then
              ffhFold mv target grid occupied rest (some (hx, hy), some dist)
            else ffhFold mv target grid occupied rest (closest, minDist)

/-- `Enemy.find_free_hex_adjacent_to_target(target_pos, grid_tiles,
occupied)` with `mv = self.mv_limit`. -/
def find_free_hex_adjacent_to_target (mv : Nat) (target : Coord)
    (grid : Grid) (occupied : List Coord) : Option Coord :=
  (ffhFold mv target grid occupied (offsetPairs mv) (none, none)).1

/-- The cells `find_free_hex_adjacent_to_target` considers: within the
`[-mv, mv]` offset square, hex-ball bound `|q+r| <= mv`, clipped to
`|coordinate| <= 50`, present, unblocked, and not occupied. -/
def ffhCandidate (mv : Nat) (target : Coord) (grid : Grid)
    (occupied : List Coord) (x : Coord) : Prop :=
  (x.1 - target.1).natAbs ≤ mv ∧ (x.2 - target.2).natAbs ≤ mv ∧
  (x.1 - target.1 + (x.2 - target.2)).natAbs ≤ mv ∧
  x.1.natAbs ≤ 50 ∧ x.2.natAbs ≤ 50 ∧
  (∃ t, grid x = some t ∧ t.blocked = false) ∧ x ∉ occupied

/-- The conditions the loop body of `find_free_hex_adjacent_to_target`
checks for an offset pair `(q, r)` (the `|q| <= mv`, `|r| <= mv` part is
enforced by the ranges instead). -/
def ffhPairOK (mv : Nat) (target : Coord) (grid : Grid)
    (occupied : List Coord) (p : Int × Int) : Prop :=
  (p.1 + p.2).natAbs ≤ mv ∧
  (target.1 + p.1).natAbs ≤ 50 ∧ (target.2 + p.2).natAbs ≤ 50 ∧
  (∃ t, grid (target.1 + p.1, target.2 + p.2) = some t ∧
    t.blocked = false) ∧
  (target.1 + p.1, target.2 + p.2) ∉ occupied

/-- Accumulator invariant of the `find_free_hex_adjacent_to_target` scan:
relative to the set `S` of cells already seen to pass the filters, the
accumulator is empty iff `S` is, and otherwise holds a seen cell realizing
the minimum distance to `target`. -/
def AccOK (target : Coord) (S : Coord → Prop) :
    Option Coord × Option Nat → Prop
  | (none, none) => ∀ x, ¬ S x
  | (some c, some d) => S c ∧ d = hex_distance c.1 c.2 target.1 target.2 ∧
      ∀ x, S x → d ≤ hex_distance x.1 x.2 target.1 target.2
  | (none, some _) => False
  | (some _, none) => False

/-! #### Grid occupancy blocking in `plan_player_path` -/

/-- `self.grid_tiles[coord].blocked = b`.  Python raises `KeyError` when
the coordinate is absent; modelled as a no-op (the theorems' preconditions
keep the mutated cells in the grid). -/
def set_blocked (g : Grid) (c : Coord) (b : Bool) : Grid :=
  fun x => if x = c then (g x).map (fun t => { t with blocked := b }) else g x

/-- Cells of living enemies (`[enem for enem in enemies if enem.hp > 0]`,
positions). -/
def alive_cells (enemies : List Enemy) : List Coord :=
  (enemies.filter (fun e => decide (0 < e.hp))).map Enemy.pos

/-- `CombatSystem.plan_player_path(goal_hex)`: refuse while moving, block
living enemies' cells, search, unblock the same cells, store the plan on
success.  Returns the new state, the grid after the call, and the boolean
result.  (`set_path_highlight` and `_plan_enemy_actions` never touch
`grid_tiles`: `calculate_ai_path` builds fresh `modified_tiles` copies.) -/
def plan_player_path (fuel : Nat) (st : GameState) (grid : Grid)
    (goal_hex : Coord) : GameState × Grid × Bool :=
  if st.is_moving then (st, grid, false)
  else
    let start_hex := st.player_pos
    let mv := get_mv_limit st
    let cells := alive_cells st.enemies
    let g1 := cells.foldl (fun g c => set_blocked g c true) grid
    let path := a_star fuel start_hex goal_hex g1 (some mv)
    let g2 := cells.foldl (fun g c => set_blocked g c false) g1
    if path ≠ [] then ({ st with commanded_path := some path }, g2, true)
    else (st, g2, false)

/-! #### Concrete instances for counterexamples and witnesses -/

/-- A fresh enemy at `(1, 0)` with its attack flag raised, as the enemy
planners leave it when it cannot move but is within range. -/
def enemyAdj : Enemy :=
  { enemy_init ((1 : Int), (0 : Int)) 6 Behavior.chase with
    attack_this_turn := true }

/-- Combat state: player at `(0, 0)` with 10 HP, melee-adjacent enemy. -/
def stMelee : GameState :=
  { player_pos := (0, 0)
    enemies := [enemyAdj]
    player_hp := 10
    max_player_hp := 10
    game_mode := Mode.combat
    mv_limit := 6
    exploration_mv := 99
    is_moving := false
    commanded_path := none
    win_message := "" }

/-- Same state with the enemy at 3 HP (for the clamp check). -/
def stMelee3 : GameState :=
  { stMelee with enemies := [{ enemyAdj with hp := 3 }] }

/-- State with one living and one dead enemy, the dead one closer. -/
def stDead : GameState :=
  { stMelee with
    enemies := [{ enemyAdj with hp := 0 },
      { enemyAdj with pos := (2, 0) }] }

/-- A wall tile under a living enemy: grid with a blocked cell at `(1, 0)`
and plain cells elsewhere on the row. -/
def gridWallUnderEnemy : Grid := fun c =>
  if c = ((1 : Int), (0 : Int)) then some ⟨1, true⟩
  else if c = ((0 : Int), (0 : Int)) then some ⟨1, false⟩ else none

/-! ### C8 -/

/-- C8: `hex_distance` equals the axial formula `(|dq| + |dq+dr| + |dr|) / 2`,
is symmetric in its two coordinate arguments, vanishes exactly on equal
coordinates, satisfies the triangle inequality, and gives distance 1 to each
of the six `get_neighbors` coordinates. -/
theorem hex_distance_properties :
    (∀ q1 r1 q2 r2 : Int, hex_distance q1 r1 q2 r2 =
      ((q1 - q2).natAbs + ((q1 - q2) + (r1 - r2)).natAbs +
        (r1 - r2).natAbs) / 2) ∧
    (∀ q1 r1 q2 r2 : Int,
      hex_distance q1 r1 q2 r2 = hex_distance q2 r2 q1 r1) ∧
    (∀ q1 r1 q2 r2 : Int,
      hex_distance q1 r1 q2 r2 = 0 ↔ q1 = q2 ∧ r1 = r2) ∧
    (∀ a b c : Coord, hex_distance a.1 a.2 c.1 c.2 ≤
      hex_distance a.1 a.2 b.1 b.2 + hex_distance b.1 b.2 c.1 c.2) ∧
    (∀ q r : Int, ∀ n ∈ get_neighbors q r, hex_distance q r n.1 n.2 = 1) := by
  refine ⟨?_, ?_, ?_, ?_, ?_⟩
  · intro q1 r1 q2 r2
    simp only [hex_distance]
    omega
  · intro q1 r1 q2 r2
    simp only [hex_distance]
    omega
  · intro q1 r1 q2 r2
    simp only [hex_distance]
    omega
  · intro a b c
    simp only [hex_distance]
    omega
  · intro q r n hn
    simp only [get_neighbors, List.mem_cons, List.not_mem_nil, or_false] at hn
    rcases hn with rfl | rfl | rfl | rfl | rfl | rfl <;>
      (simp only [hex_distance]; omega)

/-- Witness for C8: instantiates the neighbor clause at `(0,0)` and its
first neighbor `(1,0)`. -/
theorem hex_distance_properties_witness :
    (1, 0) ∈ get_neighbors 0 0 ∧ hex_distance 0 0 1 0 = 1 :=
  ⟨by decide, hex_distance_properties.2.2.2.2 0 0 (1, 0) (by decide)⟩

/-! ### Helper lemmas for the A* search -/

theorem dlookup_dinsert {α β : Type} [DecidableEq α]
    (l : List (α × β)) (a : α) (b : β) :
    dlookup (dinsert l a b) a = some b := by
  induction l with
  | nil => simp [dinsert, dlookup]
  | cons kv rest ih =>
    rcases kv with ⟨k, v⟩
    by_cases hk : k = a
    · simp [dinsert, hk, dlookup]
    · simp [dinsert, hk, dlookup, ih]

theorem dlookup_dinsert_ne {α β : Type} [DecidableEq α]
    (l : List (α × β)) (a : α) (b : β) (x : α) (h : x ≠ a) :
    dlookup (dinsert l a b) x = dlookup l x := by
  induction l with
  | nil =>
    simp only [dinsert, dlookup]
    rw [if_neg (fun he => h he.symm)]
  | cons kv rest ih =>
    rcases kv with ⟨k, v⟩
    by_cases hk : k = a
    · subst hk
      simp only [dinsert, if_pos rfl, dlookup]
      rw [if_neg (fun he => h he.symm), if_neg (fun he => h he.symm)]
    · simp only [dinsert, if_neg hk, dlookup]
      by_cases hx : k = x
      · rw [if_pos hx, if_pos hx]
      · rw [if_neg hx, if_neg hx, ih]

theorem dlookup_dinsert_isSome_mono {α β : Type} [DecidableEq α]
    {l : List (α × β)} {x : α} (a : α) (b : β)
    (h : (dlookup l x).isSome = true) :
    (dlookup (dinsert l a b) x).isSome = true := by
  by_cases hx : x = a
  · subst hx
    rw [dlookup_dinsert]
    rfl
  · rw [dlookup_dinsert_ne _ _ _ _ hx]
    exact h

theorem dlookup_isSome_iff_mem {α β : Type} [DecidableEq α]
    {l : List (α × β)} {x : α} :
    (dlookup l x).isSome = true ↔ x ∈ l.map Prod.fst := by
  induction l with
  | nil => simp [dlookup]
  | cons kv rest ih =>
    rcases kv with ⟨k, v⟩
    by_cases hk : k = x
    · subst hk
      simp [dlookup]
    · simp only [dlookup, if_neg hk, List.map_cons, List.mem_cons]
      rw [ih]
      constructor
      · exact Or.inr
      · rintro (rfl | hm)
        · exact absurd rfl hk
        · exact hm

theorem length_filter_le_filter {α : Type} (l : List α) (p q : α → Bool)
    (h : ∀ x ∈ l, p x = true → q x = true) :
    (l.filter p).length ≤ (l.filter q).length := by
  induction l with
  | nil => simp
  | cons x rest ih =>
    have hrest := ih (fun y hy => h y (List.mem_cons_of_mem _ hy))
    by_cases hp : p x = true
    · have hq := h x (List.mem_cons_self _ _) hp
      simp [List.filter, hp, hq]
      omega
    · rw [List.filter_cons_of_neg (by simpa using hp)]
      by_cases hq : q x = true
      · rw [List.filter_cons_of_pos hq]
        simp only [List.length_cons]
        omega
      · rw [List.filter_cons_of_neg (by simpa using hq)]
        exact hrest

theorem length_filter_lt_filter {α : Type} (l : List α) (p q : α → Bool)
    (c : α) (hc : c ∈ l) (hpc : p c = false) (hqc : q c = true)
    (h : ∀ x ∈ l, p x = true → q x = true) :
    (l.filter p).length < (l.filter q).length := by
  induction l with
  | nil => simp at hc
  | cons x rest ih =>
    have hmono := length_filter_le_filter rest p q
      (fun y hy => h y (List.mem_cons_of_mem _ hy))
    rcases List.mem_cons.mp hc with rfl | hcr
    · rw [List.filter_cons_of_neg (by simp [hpc]), List.filter_cons_of_pos hqc]
      simp only [List.length_cons]
      omega
    · have hlt := ih hcr (fun y hy => h y (List.mem_cons_of_mem _ hy))
      by_cases hp : p x = true
      · have hq := h x (List.mem_cons_self _ _) hp
        rw [List.filter_cons_of_pos hp, List.filter_cons_of_pos hq]
        simpa using hlt
      · rw [List.filter_cons_of_neg (by simpa using hp)]
        by_cases hq : q x = true
        · rw [List.filter_cons_of_pos hq]
          simp only [List.length_cons]
          omega
        · rw [List.filter_cons_of_neg (by simpa using hq)]
          exact hlt

theorem measureCF_le (cf : List (Coord × Coord)) (gs : List (Coord × Nat))
    (cur : Coord) : measureCF cf gs cur ≤ cf.length := by
  calc measureCF cf gs cur
      ≤ (cf.map Prod.fst).length := List.length_filter_le _ _
    _ = cf.length := List.length_map _ _

theorem get_neighbors_ne_self (c : Coord) :
    ∀ n ∈ get_neighbors c.1 c.2, n ≠ c := by
  rcases c with ⟨q, r⟩
  intro n hn
  simp only [get_neighbors, List.mem_cons, List.not_mem_nil, or_false] at hn
  rcases hn with rfl | rfl | rfl | rfl | rfl | rfl <;>
    (intro h; rw [Prod.mk.injEq] at h; omega)

theorem reconstructChain_cons (cf : List (Coord × Coord)) :
    ∀ (fuel : Nat) (cur : Coord),
      ∃ l, reconstructChain cf fuel cur = cur :: l := by
  intro fuel cur
  cases fuel with
  | zero => exact ⟨[], rfl⟩
  | succ n =>
    cases hl : dlookup cf cur with
    | none => exact ⟨[], by simp [reconstructChain, hl]⟩
    | some c =>
      exact ⟨reconstructChain cf n c, by simp [reconstructChain, hl]⟩

theorem reconChain_props {grid : Grid} {start : Coord}
    {cf : List (Coord × Coord)} {gs : List (Coord × Nat)}
    (hinv : CFInv grid start cf gs) :
    ∀ (fuel : Nat) (cur : Coord),
      (cur = start ∨
        ((dlookup cf cur).isSome = true ∧ measureCF cf gs cur < fuel)) →
      (reconstructChain cf fuel cur).getLast? = some start ∧
      List.Chain' (fun a b => dlookup cf a = some b)
        (reconstructChain cf fuel cur) ∧
      ∀ x ∈ reconstructChain cf fuel cur,
        x = start ∨ ∃ t, grid x = some t ∧ t.blocked = false := by
  intro fuel
  induction fuel with
  | zero =>
    intro cur hcur
    rcases hcur with rfl | ⟨_, hm⟩
    · exact ⟨rfl, List.chain'_singleton _, by
        intro x hx
        simp only [reconstructChain, List.mem_singleton] at hx
        exact Or.inl hx⟩
    · omega
  | succ n ih =>
    intro cur hcur
    cases hl : dlookup cf cur with
    | none =>
      have hs : cur = start := by
        rcases hcur with rfl | ⟨hsome, _⟩
        · rfl
        · rw [hl] at hsome
          simp at hsome
      subst hs
      refine ⟨by simp [reconstructChain, hl], ?_, ?_⟩
      · simp only [reconstructChain, hl]
        exact List.chain'_singleton _
      · intro x hx
        simp only [reconstructChain, hl, List.mem_singleton] at hx
        exact Or.inl hx
    | some c =>
      have hcurne : cur ≠ start := by
        intro he
        rw [he, hinv.2.1] at hl
        exact Option.noConfusion hl
      obtain ⟨hvalid, hnbr, hchainc, hgs, hlt⟩ := hinv.1 cur c hl
      have hrec : c = start ∨
          ((dlookup cf c).isSome = true ∧ measureCF cf gs c < n) := by
        rcases hchainc with rfl | hsome
        · exact Or.inl rfl
        · have hmcur : measureCF cf gs cur < n + 1 := by
            rcases hcur with rfl | ⟨_, hm⟩
            · exact absurd rfl hcurne
            · exact hm
          have hstrict : measureCF cf gs c < measureCF cf gs cur := by
            simp only [measureCF]
            apply length_filter_lt_filter _ _ _ c
            · exact dlookup_isSome_iff_mem.mp hsome
            · simp
            · simp [hlt]
            · intro x _ hx
              simp only [decide_eq_true_eq] at hx ⊢
              omega
          exact Or.inr ⟨hsome, by omega⟩
      obtain ⟨hlast, hchain, hmem⟩ := ih c hrec
      obtain ⟨l2, hl2⟩ := reconstructChain_cons cf n c
      have hstep : reconstructChain cf (n + 1) cur =
          cur :: reconstructChain cf n c := by
        simp [reconstructChain, hl]
      refine ⟨?_, ?_, ?_⟩
      · rw [hstep, hl2]
        rw [hl2] at hlast
        rw [List.getLast?_cons_cons]
        exact hlast
      · rw [hstep, hl2]
        rw [hl2] at hchain
        exact List.chain'_cons.mpr ⟨hl, hchain⟩
      · rw [hstep]
        intro x hx
        rcases List.mem_cons.mp hx with rfl | hxr
        · exact Or.inr hvalid
        · exact hmem x hxr

theorem reconstruct_path_props {grid : Grid} {start : Coord}
    {cf : List (Coord × Coord)} {gs : List (Coord × Nat)}
    (hinv : CFInv grid start cf gs) (cur : Coord)
    (hcur : cur = start ∨ (dlookup cf cur).isSome = true) :
    (reconstruct_path cf cur start).head? = some start ∧
    List.Chain' (fun a b => b ∈ get_neighbors a.1 a.2)
      (reconstruct_path cf cur start) ∧
    ∀ x ∈ reconstruct_path cf cur start,
      x = start ∨ ∃ t, grid x = some t ∧ t.blocked = false := by
  have hm : measureCF cf gs cur < cf.length + 1 :=
    Nat.lt_succ_of_le (measureCF_le cf gs cur)
  have hcur2 : cur = start ∨
      ((dlookup cf cur).isSome = true ∧
        measureCF cf gs cur < cf.length + 1) := by
    rcases hcur with rfl | hsome
    · exact Or.inl rfl
    · exact Or.inr ⟨hsome, hm⟩
  obtain ⟨hlast, hchain, hmem⟩ := reconChain_props hinv (cf.length + 1) cur hcur2
  obtain ⟨l0, hl0⟩ := reconstructChain_cons cf (cf.length + 1) cur
  have hne : reconstructChain cf (cf.length + 1) cur ≠ [] := by
    rw [hl0]
    exact List.cons_ne_nil _ _
  have hrp : reconstruct_path cf cur start =
      (reconstructChain cf (cf.length + 1) cur).reverse := by
    unfold reconstruct_path
    rw [if_pos ⟨hne, hlast⟩]
    cases hrev : (reconstructChain cf (cf.length + 1) cur).reverse with
    | nil =>
      exact absurd (List.reverse_eq_nil_iff.mp hrev) hne
    | cons x rest =>
      have hx : x = start := by
        have hh := List.head?_reverse (reconstructChain cf (cf.length + 1) cur)
        rw [hrev, hlast] at hh
        simpa using hh
      rw [hx]
  rw [hrp]
  refine ⟨?_, ?_, ?_⟩
  · rw [List.head?_reverse]
    exact hlast
  · rw [List.chain'_reverse]
    apply List.Chain'.imp _ hchain
    intro a b hab
    exact (hinv.1 a b hab).2.1
  · intro x hx
    exact hmem x (List.mem_reverse.mp hx)

theorem gval_dinsert_self (gs : List (Coord × Nat)) (a : Coord) (v : Nat) :
    gval (dinsert gs a v) a = v := by
  simp only [gval]
  rw [dlookup_dinsert]
  rfl

theorem gval_dinsert_ne (gs : List (Coord × Nat)) (a : Coord) (v : Nat)
    (x : Coord) (h : x ≠ a) : gval (dinsert gs a v) x = gval gs x := by
  simp only [gval]
  rw [dlookup_dinsert_ne _ _ _ _ h]

theorem CFInv_relax_update {grid : Grid} {start current nb : Coord} {t : Tile}
    {cf : List (Coord × Coord)} {gs : List (Coord × Nat)}
    (hwc : WellCosted grid) (hcf : CFInv grid start cf gs)
    (hcur : current = start ∨ (dlookup cf current).isSome = true)
    (hnb : nb ∈ get_neighbors current.1 current.2)
    (ht : grid nb = some t) (hb : t.blocked = false)
    (himp : dlookup gs nb = none ∨
      ∃ gn, dlookup gs nb = some gn ∧ gval gs current + t.cost < gn) :
    CFInv grid start (dinsert cf nb current)
      (dinsert gs nb (gval gs current + t.cost)) := by
  have hnbstart : nb ≠ start := by
    intro he
    subst he
    rcases himp with hnone | ⟨gn, hsome, hlt⟩
    · rw [hcf.2.2] at hnone
      exact Option.noConfusion hnone
    · rw [hcf.2.2] at hsome
      injection hsome with hgn
      omega
  have hnbcur : nb ≠ current := get_neighbors_ne_self current nb hnb
  have hcost : 1 ≤ t.cost := hwc nb t ht hb
  refine ⟨?_, ?_, ?_⟩
  · intro n c hlook
    by_cases hn : n = nb
    · subst hn
      rw [dlookup_dinsert] at hlook
      injection hlook with hc
      subst hc
      refine ⟨⟨t, ht, hb⟩, hnb, ?_, ?_, ?_⟩
      · rcases hcur with rfl | hsome
        · exact Or.inl rfl
        · exact Or.inr (dlookup_dinsert_isSome_mono _ _ hsome)
      · rw [dlookup_dinsert]
        rfl
      · rw [gval_dinsert_self, gval_dinsert_ne _ _ _ _ (Ne.symm hnbcur)]
        omega
    · rw [dlookup_dinsert_ne _ _ _ _ hn] at hlook
      obtain ⟨hv, hnr, hch, hgsn, hlt⟩ := hcf.1 n c hlook
      refine ⟨hv, hnr, ?_, dlookup_dinsert_isSome_mono _ _ hgsn, ?_⟩
      · rcases hch with rfl | hs
        · exact Or.inl rfl
        · exact Or.inr (dlookup_dinsert_isSome_mono _ _ hs)
      · rw [gval_dinsert_ne _ _ _ _ hn]
        by_cases hc : c = nb
        · subst hc
          rw [gval_dinsert_self]
          rcases himp with hnone | ⟨gn, hsome, hltg⟩
          · exfalso
            rcases hch with rfl | hs
            · exact hnbstart rfl
            · obtain ⟨c2, hc2⟩ := Option.isSome_iff_exists.mp hs
              obtain ⟨_, _, _, hgsnb, _⟩ := hcf.1 c c2 hc2
              rw [hnone] at hgsnb
              exact Bool.noConfusion hgsnb
          · have hnbval : gval gs c = gn := by
              simp only [gval]
              rw [hsome]
              rfl
            rw [hnbval] at hlt
            omega
        · rw [gval_dinsert_ne _ _ _ _ hc]
          exact hlt
  · rw [dlookup_dinsert_ne _ _ _ _ (Ne.symm hnbstart)]
    exact hcf.2.1
  · rw [dlookup_dinsert_ne _ _ _ _ (Ne.symm hnbstart)]
    exact hcf.2.2

theorem relaxNeighbor_inv {grid : Grid} {start goal current : Coord}
    (hwc : WellCosted grid) {st : AState} (hinv : Inv grid start st)
    (hcur : current = start ∨ (dlookup st.cameFrom current).isSome = true)
    {nb : Coord} (hnb : nb ∈ get_neighbors current.1 current.2) :
    Inv grid start (relaxNeighbor grid goal current st nb) := by
  unfold relaxNeighbor
  cases hg : grid nb with
  | none => exact hinv
  | some t =>
    dsimp only
    by_cases hb : t.blocked = true
    · rw [if_pos hb]
      exact hinv
    · rw [if_neg hb]
      have hb' : t.blocked = false := by
        revert hb
        cases t.blocked <;> simp
      by_cases himp : (match dlookup st.gScore nb with
          | none => true
          | some gn =>
            decide (gval st.gScore current + t.cost < gn)) = true
      · rw [if_pos himp]
        have himp2 : dlookup st.gScore nb = none ∨
            ∃ gn, dlookup st.gScore nb = some gn ∧
              gval st.gScore current + t.cost < gn := by
          cases hgs : dlookup st.gScore nb with
          | none => exact Or.inl rfl
          | some gn =>
            rw [hgs] at himp
            exact Or.inr ⟨gn, rfl, of_decide_eq_true himp⟩
        have hcf2 := CFInv_relax_update hwc hinv.1 hcur hnb hg hb' himp2
        by_cases hmem : nb ∈ st.openHash
        · rw [if_pos hmem]
          refine ⟨hcf2, ?_⟩
          intro e he
          rcases hinv.2 e he with hstart | hsome
          · exact Or.inl hstart
          · exact Or.inr (dlookup_dinsert_isSome_mono _ _ hsome)
        · rw [if_neg hmem]
          refine ⟨hcf2, ?_⟩
          intro e he
          rcases List.mem_append.mp he with hold | hnew
          · rcases hinv.2 e hold with hstart | hsome
            · exact Or.inl hstart
            · exact Or.inr (dlookup_dinsert_isSome_mono _ _ hsome)
          · simp only [List.mem_singleton] at hnew
            subst hnew
            right
            rw [dlookup_dinsert]
            rfl
      · rw [if_neg himp]
        exact hinv

theorem relaxNeighbor_cameFrom_mono {grid : Grid} {goal current : Coord}
    {st : AState} {nb x : Coord}
    (h : (dlookup st.cameFrom x).isSome = true) :
    (dlookup (relaxNeighbor grid goal current st nb).cameFrom x).isSome
      = true := by
  unfold relaxNeighbor
  cases hg : grid nb with
  | none => exact h
  | some t =>
    dsimp only
    by_cases hb : t.blocked = true
    · rw [if_pos hb]
      exact h
    · rw [if_neg hb]
      by_cases himp : (match dlookup st.gScore nb with
          | none => true
          | some gn =>
            decide (gval st.gScore current + t.cost < gn)) = true
      · rw [if_pos himp]
        by_cases hmem : nb ∈ st.openHash
        · rw [if_pos hmem]
          exact dlookup_dinsert_isSome_mono _ _ h
        · rw [if_neg hmem]
          exact dlookup_dinsert_isSome_mono _ _ h
      · rw [if_neg himp]
        exact h

theorem foldl_relax_inv {grid : Grid} {start goal current : Coord}
    (hwc : WellCosted grid) :
    ∀ (l : List Coord) (st : AState), Inv grid start st →
      (current = start ∨ (dlookup st.cameFrom current).isSome = true) →
      (∀ nb ∈ l, nb ∈ get_neighbors current.1 current.2) →
      Inv grid start (l.foldl (relaxNeighbor grid goal current) st) := by
  intro l
  induction l with
  | nil =>
    intro st hinv _ _
    exact hinv
  | cons nb rest ih =>
    intro st hinv hcur hl
    apply ih
    · exact relaxNeighbor_inv hwc hinv hcur (hl nb (List.mem_cons_self _ _))
    · rcases hcur with hstart | hsome
      · exact Or.inl hstart
      · exact Or.inr (relaxNeighbor_cameFrom_mono hsome)
    · intro x hx
      exact hl x (List.mem_cons_of_mem _ hx)

theorem head?_take_succ {α : Type} (l : List α) (n : Nat) :
    (l.take (n + 1)).head? = l.head? := by
  cases l <;> simp

theorem chain'_take {α : Type} {R : α → α → Prop} {l : List α}
    (h : List.Chain' R l) (n : Nat) : List.Chain' R (l.take n) := by
  have hsplit : l.take n ++ l.drop n = l := List.take_append_drop n l
  rw [← hsplit] at h
  exact h.left_of_append

theorem popMin_eq_none {l : List (Nat × Coord)} :
    popMin l = none ↔ l = [] := by
  cases l with
  | nil => simp [popMin]
  | cons e rest =>
    simp only [popMin]
    cases h : popMin rest with
    | none => simp
    | some p => cases p with
      | mk m others => by_cases hlt : entryLt m e <;> simp [hlt]

theorem popMin_mem {l : List (Nat × Coord)} {e : Nat × Coord}
    {rest : List (Nat × Coord)} (h : popMin l = some (e, rest)) :
    e ∈ l := by
  induction l generalizing e rest with
  | nil => simp [popMin] at h
  | cons x xs ih =>
    simp only [popMin] at h
    cases hx : popMin xs with
    | none =>
      rw [hx] at h
      simp at h
      simp [h.1]
    | some p =>
      rcases p with ⟨m, others⟩
      rw [hx] at h
      by_cases hlt : entryLt m e
      · by_cases hlt2 : entryLt m x <;> simp [hlt2] at h
        · rcases h with ⟨rfl, _⟩
          exact List.mem_cons_of_mem _ (ih hx)
        · rcases h with ⟨rfl, _⟩
          exact List.mem_cons_self _ _
      · by_cases hlt2 : entryLt m x <;> simp [hlt2] at h
        · rcases h with ⟨rfl, _⟩
          exact List.mem_cons_of_mem _ (ih hx)
        · rcases h with ⟨rfl, _⟩
          exact List.mem_cons_self _ _

theorem popMin_rest_mem {l : List (Nat × Coord)} {e : Nat × Coord}
    {rest : List (Nat × Coord)} (h : popMin l = some (e, rest)) :
    ∀ x ∈ rest, x ∈ l := by
  induction l generalizing e rest with
  | nil => simp [popMin] at h
  | cons y ys ih =>
    simp only [popMin] at h
    cases hx : popMin ys with
    | none =>
      rw [hx] at h
      simp at h
      rcases h with ⟨_, rfl⟩
      intro x hx
      simp at hx
    | some p =>
      rcases p with ⟨m, others⟩
      rw [hx] at h
      by_cases hlt : entryLt m y <;> simp [hlt] at h <;> rcases h with ⟨rfl, rfl⟩
      · intro x hxm
        rcases List.mem_cons.mp hxm with rfl | hmem
        · exact List.mem_cons_self _ _
        · exact List.mem_cons_of_mem _ (ih hx _ hmem)
      · intro x hxm
        exact List.mem_cons_of_mem _ (ih hx _ hxm)

theorem relaxNeighbor_openOK {grid : Grid} {start goal current : Coord}
    {st : AState} (h : OpenOK grid start st) (nb : Coord) :
    OpenOK grid start (relaxNeighbor grid goal current st nb) := by
  unfold relaxNeighbor
  cases hnb : grid nb with
  | none => exact h
  | some t =>
    by_cases hb : t.blocked
    · simp only [hb, if_true]
      exact h
    · simp only [hb, if_false]
      set improve :=
        (match dlookup st.gScore nb with
        | none => true
        | some gn => decide (gval st.gScore current + t.cost < gn)) with himp
      by_cases hi : improve = true
      · simp only [hi, if_true]
        by_cases hmem : nb ∈ st.openHash
        · simp only [hmem, if_true]
          exact h
        · simp only [hmem, if_false]
          intro e he
          rcases List.mem_append.mp he with hold | hnew
          · exact h e hold
          · simp at hnew
            subst hnew
            exact Or.inr ⟨t, hnb, by simpa using hb⟩
      · simp only [hi, if_false]
        exact h

theorem foldl_relax_openOK {grid : Grid} {start goal current : Coord} :
    ∀ (l : List Coord) (st : AState), OpenOK grid start st →
      OpenOK grid start (l.foldl (relaxNeighbor grid goal current) st) := by
  intro l
  induction l with
  | nil => intro st h; exact h
  | cons nb rest ih =>
    intro st h
    exact ih _ (relaxNeighbor_openOK h nb)

theorem aStarLoop_goal_blocked {grid : Grid} {start goal : Coord}
    {budget : Option Nat} (hne : start ≠ goal)
    (hblocked : ∃ t, grid goal = some t ∧ t.blocked = true) :
    ∀ (fuel : Nat) (st : AState), OpenOK grid start st →
      aStarLoop grid goal start budget fuel st = [] := by
  intro fuel
  induction fuel with
  | zero => intro st _; rfl
  | succ n ih =>
    intro st hOK
    rw [aStarLoop]
    cases hp : popMin st.openSet with
    | none => rfl
    | some p =>
      rcases p with ⟨e, rest⟩
      by_cases hgoal : e.2 = goal
      · exfalso
        rcases hOK e (popMin_mem hp) with hstart | ⟨t, hg, hub⟩
        · exact hne (by rw [← hstart]; exact hgoal)
        · rcases hblocked with ⟨t2, hg2, hb2⟩
          rw [hgoal] at hg
          rw [hg] at hg2
          injection hg2 with ht
          subst ht
          rw [hub] at hb2
          exact Bool.false_ne_true hb2
      · simp only [hgoal, if_false]
        apply ih
        apply foldl_relax_openOK
        intro x hx
        exact hOK x (popMin_rest_mem hp x hx)

theorem aStarLoop_path_valid {grid : Grid} {start goal : Coord}
    {budget : Option Nat} (hwc : WellCosted grid) :
    ∀ (fuel : Nat) (st : AState), Inv grid start st →
      aStarLoop grid goal start budget fuel st ≠ [] →
      (aStarLoop grid goal start budget fuel st).head? = some start ∧
      List.Chain' (fun a b => b ∈ get_neighbors a.1 a.2)
        (aStarLoop grid goal start budget fuel st) ∧
      ∀ x ∈ aStarLoop grid goal start budget fuel st,
        x = start ∨ ∃ t, grid x = some t ∧ t.blocked = false := by
  intro fuel
  induction fuel with
  | zero =>
    intro st _ hne
    exact absurd rfl hne
  | succ n ih =>
    intro st hinv hne
    rw [aStarLoop] at hne ⊢
    cases hp : popMin st.openSet with
    | none =>
      rw [hp] at hne
      exact absurd rfl hne
    | some p =>
      rcases p with ⟨e, rest⟩
      rw [hp] at hne
      by_cases hgoal : e.2 = goal
      · simp only [hgoal, if_true] at hne ⊢
        have hcur : goal = start ∨
            (dlookup st.cameFrom goal).isSome = true := by
          have h0 := hinv.2 e (popMin_mem hp)
          rwa [hgoal] at h0
        obtain ⟨hhead, hchain, hmem⟩ :=
          reconstruct_path_props hinv.1 goal hcur
        cases budget with
        | none => exact ⟨hhead, hchain, hmem⟩
        | some b =>
          dsimp only at hne ⊢
          by_cases hlen :
              b + 1 < (reconstruct_path st.cameFrom goal start).length
          · rw [if_pos hlen] at hne ⊢
            refine ⟨?_, chain'_take hchain _, ?_⟩
            · rw [head?_take_succ]
              exact hhead
            · intro x hx
              exact hmem x (List.take_subset _ _ hx)
          · rw [if_neg hlen] at hne ⊢
            exact ⟨hhead, hchain, hmem⟩
      · simp only [hgoal, if_false] at hne ⊢
        apply ih
        · apply foldl_relax_inv hwc
          · exact ⟨hinv.1, fun x hx => hinv.2 x (popMin_rest_mem hp x hx)⟩
          · exact hinv.2 e (popMin_mem hp)
          · intro x hx
            exact hx
        · exact hne

/-! ### C1 -/

/-- C1: whenever `a_star` returns a non-empty path, its first element is
`start`, every consecutive pair of elements is hex-adjacent (the second is
one of the six axial neighbors of the first), and every element other than
`start` is a cell that is present in the grid and not blocked at call time.
Stated under the spec's Terrain-Grid cost invariant (`WellCosted`: every
passable tile costs at least 1), which every grid the repository builds
satisfies. -/
theorem a_star_path_valid (fuel : Nat) (start goal : Coord) (grid : Grid)
    (budget : Option Nat) (hwc : WellCosted grid)
    (hne : a_star fuel start goal grid budget ≠ []) :
    (a_star fuel start goal grid budget).head? = some start ∧
    List.Chain' (fun a b => b ∈ get_neighbors a.1 a.2)
      (a_star fuel start goal grid budget) ∧
    ∀ x ∈ a_star fuel start goal grid budget,
      x = start ∨ ∃ t, grid x = some t ∧ t.blocked = false := by
  unfold a_star at hne ⊢
  by_cases habs : (grid start).isNone = true ∨ (grid goal).isNone = true
  · rw [if_pos habs] at hne
    exact absurd rfl hne
  · rw [if_neg habs] at hne ⊢
    by_cases heq : start = goal
    · rw [if_pos heq] at hne ⊢
      refine ⟨rfl, List.chain'_singleton _, ?_⟩
      intro x hx
      simp only [List.mem_singleton] at hx
      exact Or.inl hx
    · rw [if_neg heq] at hne ⊢
      apply aStarLoop_path_valid hwc
      · constructor
        · refine ⟨?_, ?_, ?_⟩
          · intro n c hlook
            simp [dlookup] at hlook
          · simp [dlookup]
          · simp [dlookup]
        · intro e he
          simp only [List.mem_singleton] at he
          left
          rw [he]
      · exact hne

/-- `grid4` satisfies the Terrain-Grid cost invariant. -/
theorem grid4_wellCosted : WellCosted grid4 := by
  intro p t ht _
  simp only [grid4] at ht
  split at ht
  · injection ht with h
    rw [← h]
  · exact Option.noConfusion ht

/-- Witness for C1: on the concrete 4x4 plain grid the search returns a
non-empty path whose first element is the start cell. -/
theorem a_star_path_valid_witness :
    (a_star 50 (0, 0) (3, 0) grid4 none).head? = some (0, 0) :=
  (a_star_path_valid 50 (0, 0) (3, 0) grid4 none grid4_wellCosted
    (by decide)).1

/-! ### C4 -/

/-- C4 (amended): `a_star` returns `[]`, without raising, whenever `start`
is absent from the grid, or `goal` is absent, or the goal cell is blocked
and `start ≠ goal`; when `start = goal` and that cell is present, it
returns `[start]` even if the cell is blocked. -/
theorem a_star_invalid_endpoints (fuel : Nat) (start goal : Coord)
    (grid : Grid) (budget : Option Nat)
    (h : (grid start).isNone ∨ (grid goal).isNone ∨
      (start ≠ goal ∧ ∃ t, grid goal = some t ∧ t.blocked = true)) :
    a_star fuel start goal grid budget = [] := by
  unfold a_star
  simp only [Option.isNone_iff_eq_none] at h ⊢
  by_cases habs : grid start = none ∨ grid goal = none
  · simp [habs]
  · simp only [habs, if_false]
    rcases h with h1 | h2 | ⟨hne, hblocked⟩
    · exact absurd (Or.inl h1) habs
    · exact absurd (Or.inr h2) habs
    · rw [if_neg hne]
      apply aStarLoop_goal_blocked hne hblocked
      intro e he
      simp only [List.mem_singleton] at he
      left
      rw [he]

/-- Counterexample to C4 as stated: the one-cell grid's cell `(0, 0)` is
blocked, yet `a_star` with `start = goal = (0, 0)` returns the non-empty
path `[(0, 0)]` — there is no goal-blocked guard before the
`start == goal` early return. -/
theorem a_star_blocked_goal_counterexample :
    (∃ t, gridBlockedCell (0, 0) = some t ∧ t.blocked = true) ∧
    a_star 5 (0, 0) (0, 0) gridBlockedCell (some 6) = [(0, 0)] :=
  ⟨⟨⟨1, true⟩, rfl, rfl⟩, by decide⟩

/-- Witness for C4: a goal absent from `grid4` yields the empty path. -/
theorem a_star_invalid_endpoints_witness :
    ((grid4 ((9 : Int), (9 : Int))).isNone = true) ∧
    a_star 3 (0, 0) (9, 9) grid4 none = [] :=
  ⟨by decide, a_star_invalid_endpoints 3 (0, 0) (9, 9) grid4 none
    (by right; left; decide)⟩

/-! ### C3 -/

theorem aStarLoop_budget_take {grid : Grid} {start goal : Coord} {b : Nat} :
    ∀ (fuel : Nat) (st : AState),
      aStarLoop grid goal start (some b) fuel st =
        (aStarLoop grid goal start none fuel st).take (b + 1) := by
  intro fuel
  induction fuel with
  | zero => intro st; rfl
  | succ n ih =>
    intro st
    rw [aStarLoop, aStarLoop]
    cases hp : popMin st.openSet with
    | none => rfl
    | some p =>
      rcases p with ⟨e, rest⟩
      by_cases hgoal : e.2 = goal
      · simp only [hgoal, if_true]
        by_cases hlen :
            b + 1 < (reconstruct_path st.cameFrom goal start).length
        · rw [if_pos hlen]
        · rw [if_neg hlen]
          exact (List.take_of_length_le (by omega)).symm
      · simp only [hgoal, if_false]
        exact ih _

/-- C3: with a finite budget `b`, `a_star` returns at most `b + 1`
coordinates (at most `b` steps), and the returned path is exactly the
first `b + 1` entries — `start` plus the first `b` steps — of the path the
unconstrained search returns; in particular when the unconstrained path has
at most `b` steps it is returned unmodified. -/
theorem a_star_budget (fuel : Nat) (start goal : Coord) (grid : Grid)
    (b : Nat) :
    (a_star fuel start goal grid (some b)).length ≤ b + 1 ∧
    a_star fuel start goal grid (some b) =
      (a_star fuel start goal grid none).take (b + 1) := by
  have heq : a_star fuel start goal grid (some b) =
      (a_star fuel start goal grid none).take (b + 1) := by
    unfold a_star
    simp only [Option.isNone_iff_eq_none]
    by_cases habs : grid start = none ∨ grid goal = none
    · simp [habs]
    · simp only [habs, if_false]
      by_cases heq : start = goal
      · simp [heq]
      · simp only [heq, if_false]
        exact aStarLoop_budget_take fuel _
  refine ⟨?_, heq⟩
  rw [heq]
  calc ((a_star fuel start goal grid none).take (b + 1)).length
      ≤ b + 1 := List.length_take_le _ _

/-! ### C2 -/

/-- C2 (code bug): evaluating `_resolve_combat_attacks` at the spec's
melee scenario.  With the player at `(0,0)` (HP 10) adjacent to a living
enemy whose attack flag is set, and rolls 1 (player) and 6 (enemy), the
enemy's attack raises the player's HP from 10 to 16: the call
`update_hp(-damage)` computes `max(0, player_hp - (-damage))`, healing
instead of damaging (contradicting `update_hp`'s own docstring and the
dead `player_hp <= 0` defeat check just below it).  And with the enemy at
3 HP and a player roll of 6, the enemy's HP is driven to `-3`: the
decrement `closest.hp -= damage` is not clamped at 0. -/
theorem resolve_combat_attacks_bug_eval :
    stMelee.player_hp = 10 ∧
    (resolve_combat_attacks false stMelee [1, 6]).1.player_hp = 16 ∧
    (stMelee3.enemies.map Enemy.hp = [3]) ∧
    ((resolve_combat_attacks false stMelee3 [6, 6]).1.enemies.map
      Enemy.hp) = [-3] := by
  refine ⟨by decide, by decide, by decide, by decide⟩

/-! ### C5 -/

theorem pickClosest_pos_hp (pq pr : Int) :
    ∀ (l : List (Nat × Enemy)) (acc : Option (Nat × Enemy))
      (minDist : Option Nat),
      (∀ p, acc = some p → 0 < p.2.hp) →
      ∀ p, pickClosest pq pr l acc minDist = some p → 0 < p.2.hp := by
  intro l
  induction l with
  | nil =>
    intro acc minDist hacc p hp
    exact hacc p hp
  | cons ie rest ih =>
    rcases ie with ⟨i, enem⟩
    intro acc minDist hacc p hp
    rw [pickClosest] at hp
    by_cases halive : 0 < enem.hp
    · rw [if_pos halive] at hp
      dsimp only at hp
      split at hp
      · apply ih _ _ _ p hp
        intro p2 hp2
        injection hp2 with h2
        rw [← h2]
        exact halive
      · exact ih _ _ hacc p hp
    · rw [if_neg halive] at hp
      exact ih _ _ hacc p hp

/-- C5: `get_closest_enemy` never returns an enemy with HP ≤ 0 (the scan
filters on `enem.hp > 0`), and in `_resolve_combat_attacks` an enemy whose
HP is ≤ 0 contributes nothing to the enemy-attack phase: its step leaves
the state and the dice stream untouched, so it never attacks. -/
theorem dead_enemies_excluded :
    (∀ (st : GameState) (e : Enemy),
      get_closest_enemy st = some e → 0 < e.hp) ∧
    (∀ (ranged : Bool) (st : GameState) (rolls : List Int) (i : Nat)
      (e : Enemy), st.enemies.get? i = some e → e.hp ≤ 0 →
      enemyAttackStep ranged (st, rolls) i = (st, rolls)) := by
  constructor
  · intro st e he
    unfold get_closest_enemy at he
    rcases Option.map_eq_some'.mp he with ⟨p, hp, hpe⟩
    have := pickClosest_pos_hp st.player_pos.1 st.player_pos.2
      st.enemies.enum none none (by intro p2 h2; exact Option.noConfusion h2)
      p hp
    rw [hpe] at this
    exact this
  · intro ranged st rolls i e hget hdead
    unfold enemyAttackStep
    simp only [hget]
    rw [if_neg]
    intro hcon
    omega

/-- Witness for C5: in a state whose closest-by-distance enemy is dead,
the query returns the living one, and the theorem yields its HP bound. -/
theorem dead_enemies_excluded_witness :
    (0 : Int) <
      ({ enemyAdj with pos := ((2 : Int), (0 : Int)) } : Enemy).hp :=
  dead_enemies_excluded.1 stDead _ (by decide)

/-! ### C10 -/

/-- C10: the `mv_limit` parameter of `Enemy.__init__` is ignored — the
constructed enemy's movement budget field is always 99, whatever the
caller passed (so `calculate_ai_path` and the retreat/patrol scans, which
read `self.mv_limit`, always use budget 99). -/
theorem enemy_init_ignores_mv_limit :
    ∀ (pos : Coord) (mv : Nat) (b : Behavior),
      (enemy_init pos mv b).mv_limit = 99 ∧
      ((enemy_init pos mv b).mv_limit = mv ↔ mv = 99) := by
  intro pos mv b
  constructor
  · rfl
  · constructor
    · intro h
      exact h.symm
    · intro h
      rw [h]
      rfl

/-! ### C6 -/

theorem natLog2Fuel_spec :
    ∀ (fuel p : Nat), 1 ≤ p → p ≤ fuel →
      2 ^ natLog2Fuel fuel p ≤ p ∧ p < 2 ^ (natLog2Fuel fuel p + 1) := by
  intro fuel
  induction fuel with
  | zero =>
    intro p h1 h2
    omega
  | succ n ih =>
    intro p h1 h2
    rw [natLog2Fuel]
    by_cases hp1 : p ≤ 1
    · rw [if_pos hp1]
      have : p = 1 := by omega
      subst this
      norm_num
    · rw [if_neg hp1]
      obtain ⟨ha, hb⟩ := ih (p / 2) (by omega) (by omega)
      rw [pow_succ, pow_succ]
      constructor
      · omega
      · rw [pow_succ] at hb
        omega

theorem natLog2_spec (p : Nat) (h : 1 ≤ p) :
    2 ^ natLog2 p ≤ p ∧ p < 2 ^ (natLog2 p + 1) :=
  natLog2Fuel_spec p p h le_rfl

theorem roundNat53_small (p : Nat) (h : p ≤ 2 ^ 53) : roundNat53 p = p := by
  by_cases h2 : p < 2 ^ 53
  · unfold roundNat53
    rw [if_pos h2]
  · have hp : p = 2 ^ 53 := by omega
    subst hp
    decide

theorem roundNat53_props (p : Nat) (h : 2 ^ 53 ≤ p) :
    p - 2 ^ (natLog2 p - 52 - 1) ≤ roundNat53 p ∧
    2 ^ (natLog2 p - 52) ∣ roundNat53 p := by
  unfold roundNat53
  rw [if_neg (by omega)]
  dsimp only
  have hD : 0 < 2 ^ (natLog2 p - 52) := Nat.pos_pow_of_pos _ (by omega)
  have hdm := Nat.div_add_mod p (2 ^ (natLog2 p - 52))
  have hr : p % 2 ^ (natLog2 p - 52) < 2 ^ (natLog2 p - 52) :=
    Nat.mod_lt _ hD
  by_cases hcond : 2 ^ (natLog2 p - 52 - 1) < p % 2 ^ (natLog2 p - 52) ∨
      (p % 2 ^ (natLog2 p - 52) = 2 ^ (natLog2 p - 52 - 1) ∧
        p / 2 ^ (natLog2 p - 52) % 2 = 1)
  · rw [if_pos hcond]
    refine ⟨?_, ⟨p / 2 ^ (natLog2 p - 52) + 1, by ring⟩⟩
    have hexp : (p / 2 ^ (natLog2 p - 52) + 1) * 2 ^ (natLog2 p - 52) =
        2 ^ (natLog2 p - 52) * (p / 2 ^ (natLog2 p - 52)) +
          2 ^ (natLog2 p - 52) := by ring
    rw [hexp]
    clear hexp hcond
    generalize 2 ^ (natLog2 p - 52) * (p / 2 ^ (natLog2 p - 52)) = X
      at hdm ⊢
    generalize p % 2 ^ (natLog2 p - 52) = R0 at hdm hr
    generalize 2 ^ (natLog2 p - 52) = D at hdm hr ⊢
    generalize 2 ^ (natLog2 p - 52 - 1) = H
    omega
  · rw [if_neg hcond]
    push_neg at hcond
    refine ⟨?_, ⟨p / 2 ^ (natLog2 p - 52), by ring⟩⟩
    have hexp : p / 2 ^ (natLog2 p - 52) * 2 ^ (natLog2 p - 52) =
        2 ^ (natLog2 p - 52) * (p / 2 ^ (natLog2 p - 52)) := by ring
    rw [hexp]
    have hle : p % 2 ^ (natLog2 p - 52) ≤ 2 ^ (natLog2 p - 52 - 1) := hcond.1
    clear hexp hcond
    generalize 2 ^ (natLog2 p - 52) * (p / 2 ^ (natLog2 p - 52)) = X
      at hdm ⊢
    generalize p % 2 ^ (natLog2 p - 52) = R0 at hdm hr hle
    generalize 2 ^ (natLog2 p - 52 - 1) = H at hle ⊢
    omega

/-- Heart of the C6 boundary analysis: when `0 < n ≤ 2^53` and the exact
fraction `m / n` is at most `3 / 10`, the double rounding of
`float(n) * 0.3` never drops below `m`: `m * 2^54 ≤ round(n * d03num)`. -/
theorem hp_le_thresh {n m : Nat} (hn1 : 0 < n) (hn : n ≤ 2 ^ 53)
    (h : 10 * m ≤ 3 * n) : m * 2 ^ 54 ≤ roundNat53 (n * d03num) := by
  have hkey : 5 * (m * 2 ^ 54) ≤ 5 * (n * d03num) + n := by
    have hmul : (10 * m) * 2 ^ 54 ≤ (3 * n) * 2 ^ 54 :=
      Nat.mul_le_mul_right _ h
    have h3 : (3 : Nat) * 2 ^ 54 = 10 * d03num + 2 := by decide
    have hrw : (3 * n) * 2 ^ 54 = 10 * (n * d03num) + 2 * n := by
      calc (3 * n) * 2 ^ 54 = n * (3 * 2 ^ 54) := by ring
        _ = n * (10 * d03num + 2) := by rw [h3]
        _ = 10 * (n * d03num) + 2 * n := by ring
    omega
  by_cases hP53 : n * d03num < 2 ^ 53
  · rw [roundNat53_small _ (le_of_lt hP53)]
    rcases Nat.eq_zero_or_pos m with rfl | hm
    · simp
    · -- m >= 1 forces n * d03num >= 9 * 2^53 / 5, contradicting hP53
      omega
  · have hP53b : 2 ^ 53 ≤ n * d03num := by omega
    obtain ⟨hlow, hdvd⟩ := roundNat53_props (n * d03num) hP53b
    obtain ⟨hk1, hk2⟩ := natLog2_spec (n * d03num) (by omega)
    have hP106 : n * d03num < 2 ^ 106 := by
      calc n * d03num ≤ 2 ^ 53 * d03num := Nat.mul_le_mul_right _ hn
        _ < 2 ^ 106 := by decide
    have hk53 : 53 ≤ natLog2 (n * d03num) := by
      by_contra hcon
      push_neg at hcon
      have : (2 : Nat) ^ (natLog2 (n * d03num) + 1) ≤ 2 ^ 53 :=
        Nat.pow_le_pow_right (by norm_num) (by omega)
      omega
    have hk105 : natLog2 (n * d03num) ≤ 105 := by
      by_contra hcon
      push_neg at hcon
      have : (2 : Nat) ^ 106 ≤ 2 ^ natLog2 (n * d03num) :=
        Nat.pow_le_pow_right (by norm_num) (by omega)
      omega
    set k := natLog2 (n * d03num) with hkdef
    by_contra hcon
    push_neg at hcon
    have hdvd2 : 2 ^ (k - 52) ∣ m * 2 ^ 54 := by
      have he : (2 : Nat) ^ 54 = 2 ^ (k - 52) * 2 ^ (54 - (k - 52)) := by
        rw [← pow_add]
        congr 1
        omega
      exact ⟨m * 2 ^ (54 - (k - 52)), by rw [he]; ring⟩
    obtain ⟨a, ha⟩ := hdvd
    obtain ⟨b, hb⟩ := hdvd2
    have hstep : roundNat53 (n * d03num) + 2 ^ (k - 52) ≤ m * 2 ^ 54 := by
      rw [ha, hb] at hcon ⊢
      have hab : a < b :=
        Nat.lt_of_mul_lt_mul_left (a := 2 ^ (k - 52)) hcon
      calc 2 ^ (k - 52) * a + 2 ^ (k - 52) = 2 ^ (k - 52) * (a + 1) := by
            ring
        _ ≤ 2 ^ (k - 52) * b := Nat.mul_le_mul_left _ (by omega)
    have h2s : (2 : Nat) ^ (k - 52) = 2 * 2 ^ (k - 52 - 1) := by
      have he : k - 52 - 1 + 1 = k - 52 := by omega
      calc (2 : Nat) ^ (k - 52) = 2 ^ (k - 52 - 1 + 1) := by rw [he]
        _ = 2 * 2 ^ (k - 52 - 1) := by rw [pow_succ]; ring
    have hHle : (2 : Nat) ^ (k - 52 - 1) ≤ 2 ^ 53 :=
      Nat.pow_le_pow_right (by norm_num) (by omega)
    have hup : n * d03num + 2 ^ (k - 52 - 1) ≤ m * 2 ^ 54 := by omega
    have hn5 : 5 * 2 ^ (k - 52 - 1) ≤ n := by omega
    have hPup : n * d03num < 2 ^ (k - 52 - 1) * 2 ^ 54 := by
      have he : (2 : Nat) ^ (k - 52 - 1) * 2 ^ 54 = 2 ^ (k + 1) := by
        rw [← pow_add]
        congr 1
        omega
      rw [he]
      exact hk2
    have hPlow : 5 * 2 ^ (k - 52 - 1) * d03num ≤ n * d03num :=
      Nat.mul_le_mul_right _ hn5
    have hd : (2 : Nat) ^ 54 ≤ 5 * d03num := by decide
    have hfin : 2 ^ (k - 52 - 1) * 2 ^ 54 ≤ 5 * 2 ^ (k - 52 - 1) * d03num := by
      calc 2 ^ (k - 52 - 1) * 2 ^ 54 ≤ 2 ^ (k - 52 - 1) * (5 * d03num) :=
            Nat.mul_le_mul_left _ hd
        _ = 5 * 2 ^ (k - 52 - 1) * d03num := by ring
    omega

/-- C6 (amended): for every enemy with `0 < max_hp ≤ 2^53` (every game
value: the constructor sets 10) whose exact HP fraction is at or below
0.3, and every player position (hence every distance value), a living
player makes `_decide_behavior` select retreat — the low-HP rule is
checked before the distance rule; the `_plan_enemy_actions` variant (with
its int threshold `retreat_threshold = 3`, the constructed value) also
yields retreat.  The `max_hp ≤ 2^53` proviso is forced: beyond it the
double rounding of `max_hp * 0.3` can drop the exact 30% boundary (see the
counterexample). -/
theorem behavior_low_hp_retreat (e : Enemy) (player_hp : Int)
    (player_pos : Coord) (hmax0 : 0 < e.max_hp) (hmax : e.max_hp ≤ 2 ^ 53)
    (hfrac : 10 * e.hp ≤ 3 * e.max_hp) (halive : 0 < player_hp)
    (hrt : e.retreat_threshold = 3) :
    (decide_behavior e player_hp player_pos).1 = Behavior.retreat ∧
    plan_enemy_behavior e player_pos = Behavior.retreat := by
  constructor
  · unfold decide_behavior
    rw [if_neg (by omega)]
    dsimp only
    rw [if_pos]
    unfold py03Thresh
    rw [if_pos (by omega)]
    rw [roundNat53_small e.max_hp.toNat (by omega)]
    by_cases hhp : e.hp ≤ 0
    · have hnn : (0 : Int) ≤
          (roundNat53 (e.max_hp.toNat * d03num) : Int) := Int.natCast_nonneg _
      have h54 : (0 : Int) < 2 ^ 54 := by norm_num
      nlinarith
    · push_neg at hhp
      have hnat := hp_le_thresh (n := e.max_hp.toNat) (m := e.hp.toNat)
        (by omega) (by omega) (by omega)
      have hcast : (e.hp.toNat : Int) * 2 ^ 54 ≤
          (roundNat53 (e.max_hp.toNat * d03num) : Int) := by
        exact_mod_cast hnat
      omega
  · unfold plan_enemy_behavior
    rw [hrt]
    rw [if_pos (by push_cast; omega)]

set_option maxRecDepth 10000 in
/-- Counterexample to C6 as stated: `max_hp = 2^53 + 5` and
`hp = ⌊3 max_hp / 10⌋` have exact fraction ≤ 0.3 (`10 hp ≤ 3 max_hp`), the
player is alive and adjacent, yet `_decide_behavior` selects chase: in
doubles, `float(9007199254740997) * 0.3 = 2702159776422298.5 < hp`.
(Checked against CPython: `2702159776422299 <= 9007199254740997 * 0.3` is
`False`.) -/
theorem decide_behavior_boundary_counterexample :
    10 * (2702159776422299 : Int) ≤ 3 * 9007199254740997 ∧
    (decide_behavior
      { enemy_init (5, 5) 6 Behavior.chase with
        hp := 2702159776422299, max_hp := 9007199254740997 }
      10 (5, 6)).1 = Behavior.chase := by
  constructor
  · decide
  · decide

/-- Witness for C6: the spec's concrete scenario `hp = 3`, `max_hp = 10`
with an adjacent living player resolves to retreat. -/
theorem behavior_low_hp_retreat_witness :
    (decide_behavior { enemyAdj with hp := 3 } 5 (0, 0)).1 =
      Behavior.retreat ∧
    plan_enemy_behavior { enemyAdj with hp := 3 } (0, 0) =
      Behavior.retreat :=
  behavior_low_hp_retreat { enemyAdj with hp := 3 } 5 (0, 0) (by decide)
    (by decide) (by decide) (by decide) (by decide)

/-! ### C7 -/

theorem hex_distance_eq_zero {q1 r1 q2 r2 : Int} :
    hex_distance q1 r1 q2 r2 = 0 ↔ q1 = q2 ∧ r1 = r2 := by
  simp only [hex_distance]
  omega

theorem AccOK_congr {target : Coord} {S S2 : Coord → Prop}
    (h : ∀ x, S x ↔ S2 x) :
    ∀ acc, AccOK target S acc → AccOK target S2 acc := by
  intro acc
  rcases acc with ⟨c, d⟩
  cases c with
  | none =>
    cases d with
    | none =>
      intro ha x hx
      exact ha x ((h x).mpr hx)
    | some d0 =>
      intro ha
      exact ha.elim
  | some c0 =>
    cases d with
    | none =>
      intro ha
      exact ha.elim
    | some d0 =>
      rintro ⟨h1, h2, h3⟩
      exact ⟨(h c0).mp h1, h2, fun x hx => h3 x ((h x).mpr hx)⟩

theorem mem_scanOffsets (mv : Nat) (a : Int) :
    a ∈ scanOffsets mv ↔ a.natAbs ≤ mv := by
  unfold scanOffsets
  rw [List.mem_map]
  constructor
  · rintro ⟨i, hi, heq⟩
    rw [List.mem_range] at hi
    rw [← heq]
    show ((i : Int) - (mv : Int)).natAbs ≤ mv
    omega
  · intro ha
    refine ⟨(a + (mv : Int)).toNat, ?_, ?_⟩
    · rw [List.mem_range]
      omega
    · show (((a + (mv : Int)).toNat : Nat) : Int) - (mv : Int) = a
      omega

theorem mem_offsetPairs (mv : Nat) (p : Int × Int) :
    p ∈ offsetPairs mv ↔ p.1.natAbs ≤ mv ∧ p.2.natAbs ≤ mv := by
  rcases p with ⟨a, b⟩
  simp only [offsetPairs, List.mem_flatMap, List.mem_map]
  constructor
  · rintro ⟨q, hq, r, hr, he⟩
    rw [Prod.mk.injEq] at he
    rcases he with ⟨rfl, rfl⟩
    exact ⟨(mem_scanOffsets mv q).mp hq, (mem_scanOffsets mv r).mp hr⟩
  · rintro ⟨ha, hb⟩
    exact ⟨a, (mem_scanOffsets mv a).mpr ha, b,
      (mem_scanOffsets mv b).mpr hb, rfl⟩

theorem accok_skip {mv : Nat} {target : Coord} {grid : Grid}
    {occupied : List Coord} {q r : Int} {rest : List (Int × Int)}
    {S : Coord → Prop} {acc2 : Option Coord × Option Nat}
    (hfail : ¬ ffhPairOK mv target grid occupied (q, r))
    (h : AccOK target
      (fun x => S x ∨ ∃ p, p ∈ rest ∧ ffhPairOK mv target grid occupied p ∧
        x = (target.1 + p.1, target.2 + p.2)) acc2) :
    AccOK target
      (fun x => S x ∨ ∃ p, p ∈ (q, r) :: rest ∧
        ffhPairOK mv target grid occupied p ∧
        x = (target.1 + p.1, target.2 + p.2)) acc2 := by
  apply AccOK_congr _ _ h
  intro x
  constructor
  · rintro (hs | ⟨p, hp, hok, hx⟩)
    · exact Or.inl hs
    · exact Or.inr ⟨p, List.mem_cons_of_mem _ hp, hok, hx⟩
  · rintro (hs | ⟨p, hp, hok, hx⟩)
    · exact Or.inl hs
    · rcases List.mem_cons.mp hp with rfl | hmem
      · exact absurd hok hfail
      · exact Or.inr ⟨p, hmem, hok, hx⟩

theorem accok_emit {mv : Nat} {target : Coord} {grid : Grid}
    {occupied : List Coord} {q r : Int} {rest : List (Int × Int)}
    {S : Coord → Prop} {acc2 : Option Coord × Option Nat}
    (h : AccOK target
      (fun x => (S x ∨ (ffhPairOK mv target grid occupied (q, r) ∧
          x = (target.1 + q, target.2 + r))) ∨
        ∃ p, p ∈ rest ∧ ffhPairOK mv target grid occupied p ∧
          x = (target.1 + p.1, target.2 + p.2)) acc2) :
    AccOK target
      (fun x => S x ∨ ∃ p, p ∈ (q, r) :: rest ∧
        ffhPairOK mv target grid occupied p ∧
        x = (target.1 + p.1, target.2 + p.2)) acc2 := by
  apply AccOK_congr _ _ h
  intro x
  constructor
  · rintro ((hs | ⟨hok, hx⟩) | ⟨p, hp, hok, hx⟩)
    · exact Or.inl hs
    · exact Or.inr ⟨(q, r), List.mem_cons_self _ _, hok, hx⟩
    · exact Or.inr ⟨p, List.mem_cons_of_mem _ hp, hok, hx⟩
  · rintro (hs | ⟨p, hp, hok, hx⟩)
    · exact Or.inl (Or.inl hs)
    · rcases List.mem_cons.mp hp with rfl | hmem
      · exact Or.inl (Or.inr ⟨hok, hx⟩)
      · exact Or.inr ⟨p, hmem, hok, hx⟩

theorem ffhFold_spec (mv : Nat) (target : Coord) (grid : Grid)
    (occupied : List Coord) :
    ∀ (l : List (Int × Int)) (acc : Option Coord × Option Nat)
      (S : Coord → Prop), AccOK target S acc →
      AccOK target
        (fun x => S x ∨ ∃ p, p ∈ l ∧ ffhPairOK mv target grid occupied p ∧
          x = (target.1 + p.1, target.2 + p.2))
        (ffhFold mv target grid occupied l acc) := by
  intro l
  induction l with
  | nil =>
    intro acc S hS
    apply AccOK_congr _ _ hS
    intro x
    constructor
    · exact Or.inl
    · rintro (hs | ⟨p, hp, _, _⟩)
      · exact hs
      · exact absurd hp (List.not_mem_nil p)
  | cons pr rest ih =>
    rcases pr with ⟨q, r⟩
    intro acc S hS
    rcases acc with ⟨closest, minDist⟩
    rw [ffhFold]
    by_cases h1 : mv < (q + r).natAbs
    · rw [if_pos h1]
      exact accok_skip (fun hok => absurd hok.1 (by omega))
        (ih (closest, minDist) S hS)
    · rw [if_neg h1]
      dsimp only
      by_cases h2 : 50 < (target.1 + q).natAbs ∨ 50 < (target.2 + r).natAbs
      · rw [if_pos h2]
        exact accok_skip
          (fun hok => by
            rcases h2 with h2 | h2
            · exact absurd hok.2.1 (by omega)
            · exact absurd hok.2.2.1 (by omega))
          (ih (closest, minDist) S hS)
      · rw [if_neg h2]
        cases hg : grid (target.1 + q, target.2 + r) with
        | none =>
          exact accok_skip
            (fun hok => by
              rcases hok.2.2.2.1 with ⟨t, ht, _⟩
              rw [hg] at ht
              exact Option.noConfusion ht)
            (ih (closest, minDist) S hS)
        | some t =>
          dsimp only
          by_cases h3 : t.blocked = true
          · rw [if_pos h3]
            exact accok_skip
              (fun hok => by
                rcases hok.2.2.2.1 with ⟨t2, ht2, hb2⟩
                rw [hg] at ht2
                injection ht2 with ht2
                subst ht2
                rw [h3] at hb2
                exact Bool.noConfusion hb2)
              (ih (closest, minDist) S hS)
          · rw [if_neg h3]
            by_cases h4 : (target.1 + q, target.2 + r) ∈ occupied
            · rw [if_pos h4]
              exact accok_skip (fun hok => absurd h4 hok.2.2.2.2)
                (ih (closest, minDist) S hS)
            · rw [if_neg h4]
              have hOK : ffhPairOK mv target grid occupied (q, r) := by
                refine ⟨by omega, by omega, by omega, ⟨t, hg, ?_⟩, h4⟩
                revert h3
                cases t.blocked <;> simp
              cases closest with
              | none =>
                cases minDist with
                | none =>
                  apply accok_emit
                  apply ih
                  refine ⟨Or.inr ⟨hOK, rfl⟩, rfl, ?_⟩
                  intro x hx
                  rcases hx with hs | ⟨_, hxe⟩
                  · exact absurd hs (hS x)
                  · subst hxe
                    exact Nat.le_refl _
                | some d0 => exact hS.elim
              | some c0 =>
                cases minDist with
                | none => exact hS.elim
                | some d0 =>
                  obtain ⟨hc, hd, hmin⟩ := hS
                  by_cases hlt : hex_distance (target.1 + q) (target.2 + r)
                      target.1 target.2 < d0
                  · rw [if_pos (decide_eq_true hlt)]
                    apply accok_emit
                    apply ih
                    refine ⟨Or.inr ⟨hOK, rfl⟩, rfl, ?_⟩
                    intro x hx
                    rcases hx with hs | ⟨_, hxe⟩
                    · exact le_of_lt (lt_of_lt_of_le hlt (hmin x hs))
                    · subst hxe
                      exact Nat.le_refl _
                  · rw [if_neg (fun hcon => hlt (of_decide_eq_true hcon))]
                    apply accok_emit
                    apply ih
                    refine ⟨Or.inl hc, hd, ?_⟩
                    intro x hx
                    rcases hx with hs | ⟨_, hxe⟩
                    · exact hmin x hs
                    · subst hxe
                      show d0 ≤ hex_distance (target.1 + q) (target.2 + r)
                        target.1 target.2
                      omega

theorem ffhCandidate_iff (mv : Nat) (target : Coord) (grid : Grid)
    (occupied : List Coord) (x : Coord) :
    ffhCandidate mv target grid occupied x ↔
      ∃ p, p ∈ offsetPairs mv ∧ ffhPairOK mv target grid occupied p ∧
        x = (target.1 + p.1, target.2 + p.2) := by
  constructor
  · rintro ⟨hq, hr, hqr, h50a, h50b, hgrid, hocc⟩
    have hx1 : target.1 + (x.1 - target.1) = x.1 := by ring
    have hx2 : target.2 + (x.2 - target.2) = x.2 := by ring
    have hpair : (target.1 + (x.1 - target.1), target.2 + (x.2 - target.2))
        = x := by
      rw [hx1, hx2]
    refine ⟨(x.1 - target.1, x.2 - target.2),
      (mem_offsetPairs mv _).mpr ⟨hq, hr⟩, ?_, hpair.symm⟩
    refine ⟨hqr, ?_, ?_, ?_, ?_⟩
    · show (target.1 + (x.1 - target.1)).natAbs ≤ 50
      rw [hx1]
      exact h50a
    · show (target.2 + (x.2 - target.2)).natAbs ≤ 50
      rw [hx2]
      exact h50b
    · show ∃ t, grid (target.1 + (x.1 - target.1),
        target.2 + (x.2 - target.2)) = some t ∧ t.blocked = false
      rw [hpair]
      exact hgrid
    · show (target.1 + (x.1 - target.1), target.2 + (x.2 - target.2))
        ∉ occupied
      rw [hpair]
      exact hocc
  · rintro ⟨⟨a, b⟩, hmem, ⟨hsum, h5a, h5b, hg, ho⟩, rfl⟩
    obtain ⟨ha, hb⟩ := (mem_offsetPairs mv _).mp hmem
    have e1 : target.1 + a - target.1 = a := by ring
    have e2 : target.2 + b - target.2 = b := by ring
    refine ⟨?_, ?_, ?_, h5a, h5b, hg, ho⟩
    · show (target.1 + a - target.1).natAbs ≤ mv
      rw [e1]
      exact ha
    · show (target.2 + b - target.2).natAbs ≤ mv
      rw [e2]
      exact hb
    · show (target.1 + a - target.1 + (target.2 + b - target.2)).natAbs ≤ mv
      rw [e1, e2]
      exact hsum

/-- Characterization of `find_free_hex_adjacent_to_target`: any returned
hex is a candidate minimizing hex distance to `target`, and `none` means
there is no candidate at all. -/
theorem find_free_hex_spec_aux (mv : Nat) (target : Coord) (grid : Grid)
    (occupied : List Coord) :
    (∀ h, find_free_hex_adjacent_to_target mv target grid occupied = some h →
      ffhCandidate mv target grid occupied h ∧
      ∀ x, ffhCandidate mv target grid occupied x →
        hex_distance h.1 h.2 target.1 target.2 ≤
          hex_distance x.1 x.2 target.1 target.2) ∧
    (find_free_hex_adjacent_to_target mv target grid occupied = none →
      ∀ x, ¬ ffhCandidate mv target grid occupied x) := by
  have hfin := ffhFold_spec mv target grid occupied (offsetPairs mv)
    (none, none) (fun _ => False) (fun x hx => hx)
  unfold find_free_hex_adjacent_to_target
  cases hres : ffhFold mv target grid occupied (offsetPairs mv)
      (none, none) with
  | mk c d =>
    rw [hres] at hfin
    cases c with
    | none =>
      cases d with
      | none =>
        refine ⟨?_, ?_⟩
        · intro h habs
          exact Option.noConfusion habs
        · intro _ x hx
          exact hfin x (Or.inr ((ffhCandidate_iff mv target grid occupied
            x).mp hx))
      | some d0 => exact hfin.elim
    | some c0 =>
      cases d with
      | none => exact hfin.elim
      | some d0 =>
        obtain ⟨hc, hd, hmin⟩ := hfin
        refine ⟨?_, ?_⟩
        · intro h hsome
          injection hsome with hh
          subst hh
          rcases hc with hcf | hcp
          · exact hcf.elim
          · refine ⟨(ffhCandidate_iff mv target grid occupied c0).mpr hcp,
              ?_⟩
            intro x hx
            have := hmin x (Or.inr ((ffhCandidate_iff mv target grid
              occupied x).mp hx))
            omega
        · intro habs
          exact Option.noConfusion habs

/-- C7 (amended): the goal hex `find_free_hex_adjacent_to_target` selects
for a chasing enemy is a free (present, unblocked, unoccupied) hex of the
`[-mv, mv]` offset window around the *player* (hex-ball bound
`|q+r| ≤ mv`, clipped to `|coordinate| ≤ 50`) that minimizes hex distance
to the *player* — the player's own cell when it is free and not in the
occupied set, not necessarily an adjacent hex, and independent of the
enemy's position; when no such free hex exists, no goal is selected. -/
theorem find_free_hex_spec (mv : Nat) (target : Coord) (grid : Grid)
    (occupied : List Coord) :
    (∀ h, find_free_hex_adjacent_to_target mv target grid occupied = some h →
      ffhCandidate mv target grid occupied h ∧
      ∀ x, ffhCandidate mv target grid occupied x →
        hex_distance h.1 h.2 target.1 target.2 ≤
          hex_distance x.1 x.2 target.1 target.2) ∧
    (find_free_hex_adjacent_to_target mv target grid occupied = none →
      ∀ x, ¬ ffhCandidate mv target grid occupied x) :=
  find_free_hex_spec_aux mv target grid occupied

/-- Counterexample to C7 as stated: with the player at `(0, 0)` on the
unblocked 4x4 grid and no occupied cells (a lone chasing enemy: `occupied`
holds only *other* living enemies), the selected goal hex is the player's
own cell — at hex distance 0, not an adjacent hex at distance 1 closest to
the enemy. -/
theorem find_free_hex_counterexample :
    find_free_hex_adjacent_to_target 99 (0, 0) grid4 [] = some (0, 0) ∧
    hex_distance 0 0 0 0 ≠ 1 := by
  constructor
  · obtain ⟨hsome, hnone⟩ := find_free_hex_spec_aux 99 (0, 0) grid4 []
    have hcand : ffhCandidate 99 ((0 : Int), (0 : Int)) grid4 [] (0, 0) :=
      ⟨by decide, by decide, by decide, by decide, by decide,
        ⟨⟨1, false⟩, rfl, rfl⟩, by decide⟩
    generalize hres :
      find_free_hex_adjacent_to_target 99 (0, 0) grid4 [] = res
      at hsome hnone ⊢
    rcases res with _ | h
    · exact absurd hcand (hnone rfl (0, 0))
    · obtain ⟨_, hmin⟩ := hsome h rfl
      have hle := hmin (0, 0) hcand
      have hdist0 : hex_distance h.1 h.2 0 0 = 0 := by
        have hle2 : hex_distance h.1 h.2 0 0 ≤ hex_distance 0 0 0 0 := hle
        have hz : hex_distance (0 : Int) (0 : Int) 0 0 = 0 := by decide
        omega
      have hc0 : h = (0, 0) := by
        obtain ⟨he1, he2⟩ := hex_distance_eq_zero.mp hdist0
        rcases h with ⟨a, b⟩
        rw [Prod.mk.injEq]
        exact ⟨he1, he2⟩
      rw [hc0]
  · decide

/-- Witness for C7: on a small window (`mv = 1`) the selection at `(0, 0)`
is a genuine candidate (the theorem applied at the concrete result). -/
theorem find_free_hex_spec_witness :
    ffhCandidate 1 ((0 : Int), (0 : Int)) grid4 [] (0, 0) :=
  ((find_free_hex_spec 1 (0, 0) grid4 []).1 (0, 0) (by decide)).1

/-! ### C9 -/

theorem foldl_set_blocked_not_mem :
    ∀ (cells : List Coord) (g : Grid) (b : Bool) (x : Coord), x ∉ cells →
      (cells.foldl (fun g c => set_blocked g c b) g) x = g x := by
  intro cells
  induction cells with
  | nil =>
    intro g b x _
    rfl
  | cons c cs ih =>
    intro g b x hx
    have hxc : x ≠ c := fun h => hx (h ▸ List.mem_cons_self _ _)
    have hxcs : x ∉ cs := fun h => hx (List.mem_cons_of_mem _ h)
    rw [List.foldl_cons, ih _ b x hxcs]
    simp only [set_blocked, if_neg hxc]

theorem foldl_set_blocked_mem :
    ∀ (cells : List Coord) (g : Grid) (b : Bool) (x : Coord), x ∈ cells →
      (cells.foldl (fun g c => set_blocked g c b) g) x =
        (g x).map (fun t => { t with blocked := b }) := by
  intro cells
  induction cells with
  | nil =>
    intro g b x hx
    simp at hx
  | cons c cs ih =>
    intro g b x hx
    rw [List.foldl_cons]
    by_cases hxcs : x ∈ cs
    · rw [ih _ b x hxcs]
      by_cases hxc : x = c
      · subst hxc
        simp only [set_blocked, if_true]
        cases g x <;> rfl
      · simp only [set_blocked]
        rw [if_neg hxc]
    · have hxc : x = c := by
        rcases List.mem_cons.mp hx with h | h
        · exact h
        · exact absurd h hxcs
      subst hxc
      rw [foldl_set_blocked_not_mem cs _ b x hxcs]
      simp only [set_blocked, if_true]

/-- C9 (amended): provided every living enemy stands on a cell that is
present in the grid and unblocked before the call — true in any reachable
play state where actors occupy passable cells — `plan_player_path` leaves
every tile's blocked flag exactly as it found it, whether or not a path
was found.  (Without that proviso the unconditional reset to `False` can
unblock a cell that was already blocked; see the counterexample.) -/
theorem plan_player_path_restores (fuel : Nat) (st : GameState) (grid : Grid)
    (goal_hex : Coord)
    (h : ∀ c ∈ alive_cells st.enemies,
      (grid c).map Tile.blocked = some false) :
    ∀ x, (plan_player_path fuel st grid goal_hex).2.1 x = grid x := by
  intro x
  unfold plan_player_path
  by_cases hmov : st.is_moving
  · rw [if_pos hmov]
  · rw [if_neg hmov]
    dsimp only
    set cells := alive_cells st.enemies with hcells
    set g1 := cells.foldl (fun g c => set_blocked g c true) grid with hg1
    have hg2 : ∀ res : List Coord,
        ((if res ≠ [] then
            ({ st with commanded_path := some res },
              cells.foldl (fun g c => set_blocked g c false) g1, true)
          else (st, cells.foldl (fun g c => set_blocked g c false) g1,
            false)) : GameState × Grid × Bool).2.1 =
          cells.foldl (fun g c => set_blocked g c false) g1 := by
      intro res
      by_cases hres : res ≠ []
      · rw [if_pos hres]
      · rw [if_neg hres]
    rw [hg2]
    by_cases hx : x ∈ cells
    · rw [foldl_set_blocked_mem cells g1 false x hx, hg1,
        foldl_set_blocked_mem cells grid true x hx]
      have hxg := h x hx
      cases hgx : grid x with
      | none =>
        rw [hgx] at hxg
        exact Option.noConfusion hxg
      | some t =>
        rw [hgx] at hxg
        simp only [Option.map_some'] at hxg ⊢
        injection hxg with ht
        cases t with
        | mk cost blocked =>
          simp only [Tile.blocked] at ht
          rw [← ht]
    · rw [foldl_set_blocked_not_mem cells g1 false x hx, hg1,
        foldl_set_blocked_not_mem cells grid true x hx]

/-- Counterexample to C9 as stated: a living enemy standing on an
already-blocked (wall) cell.  After `plan_player_path` the cell's blocked
flag is `False`, not its pre-call value `True` — the reset writes `False`
unconditionally instead of restoring. -/
theorem plan_player_path_alters_grid_counterexample :
    gridWallUnderEnemy (1, 0) = some ⟨1, true⟩ ∧
    (plan_player_path 5 stMelee gridWallUnderEnemy (0, 0)).2.1 (1, 0) =
      some ⟨1, false⟩ := by
  refine ⟨by decide, by decide⟩

/-- Witness for C9: on `grid4`, where the adjacent enemy stands on a plain
unblocked cell, the grid is restored at that cell. -/
theorem plan_player_path_restores_witness :
    (plan_player_path 5 stMelee grid4 (2, 0)).2.1 (1, 0) = grid4 (1, 0) :=
  plan_player_path_restores 5 stMelee grid4 (2, 0) (by decide) (1, 0)

end DWGame
